import Mathlib

set_option autoImplicit false

/-!
Shallow embedding of the asset synchronization and local cache engine:
the Dexie-backed local store (`src/services/db.ts`), the blob-URL handle
cache in the same module, the remote sync service
(`src/services/serverSync.ts`) and the orchestrator operations of
`src/context/AssetContext.tsx`.  Binary blobs are modelled as byte
lists, the two IndexedDB tables as insertion-ordered association lists,
and asynchronous sequencing as explicit event traces.
-/

namespace DAM

/-- Raw binary payload bytes (a JS `Blob`). -/
abbrev Blob := List Nat

/-- The result of `new Blob()`: an empty payload. -/
def emptyBlob : Blob := []

/-- JS truthiness of an optional string: `undefined`/`null` and the empty
string are falsy, every other string is truthy. -/
def jsTruthyStr (s : Option String) : Bool :=
  match s with
  | some v => v ≠ ""
  | none => false

/-- JS `a || b` on optional object values (`Blob`, arrays): every object is
truthy, so the left operand wins whenever it is present. -/
def jsOr {α : Type} (a b : Option α) : Option α :=
  match a with
  | some x => some x
  | none => b

/-- A keyed table: insertion-ordered association list, as both a Dexie
table keyed by its inbound key and a JS `Map`. -/
abbrev Table (V : Type) := List (String × V)

/-- Lookup by key. -/
def tableGet {V : Type} : Table V → String → Option V
  | [], _ => none
  | (k0, v0) :: rest, k => if k0 = k then some v0 else tableGet rest k

/-- Dexie `put` and JS `Map.set`: replace in place when the key exists,
append otherwise. -/
def tablePut {V : Type} : Table V → String → V → Table V
  | [], k, v => [(k, v)]
  | (k0, v0) :: rest, k, v =>
      if k0 = k then (k, v) :: rest else (k0, v0) :: tablePut rest k v

/-- Dexie `delete` and JS `Map.delete`. -/
def tableDel {V : Type} : Table V → String → Table V
  | [], _ => []
  | (k0, v0) :: rest, k =>
      if k0 = k then tableDel rest k else (k0, v0) :: tableDel rest k

/-- Structural metadata of an asset (`AssetMetadata` in `types.ts`). -/
structure AssetMetadata where
  vertices : Nat
  polygons : Nat
  materialCount : Nat
  createdDate : String
  deriving DecidableEq

/-- The `Asset` record of `types.ts`.  Fields that the runtime may leave
`undefined` (optional fields, and `categoryId`/url fields on loosely typed
records coming from the server or from legacy rows) are `Option`s. -/
structure Asset where
  id : String
  name : String
  description : String
  categoryId : Option String
  type : String
  url : Option String
  thumbnail : Option String
  metadata : AssetMetadata
  shape : Option String
  color : Option String
  unityPackageUrl : Option String
  fbxZipUrl : Option String
  doubleSide : Option Bool
  fileSize : Option String
  thumbnailBlob : Option Blob
  tags : Option (List String)
  deriving DecidableEq

/-- `StoredAsset` of `db.ts`: an `Asset` without the four URL fields, with
an optional thumbnail blob stored in the metadata table. -/
structure StoredAsset where
  id : String
  name : String
  description : String
  categoryId : Option String
  type : String
  metadata : AssetMetadata
  shape : Option String
  color : Option String
  doubleSide : Option Bool
  fileSize : Option String
  thumbnailBlob : Option Blob
  tags : Option (List String)
  deriving DecidableEq

/-- The destructuring `const { url, thumbnail, unityPackageUrl, fbxZipUrl,
thumbnailBlob, ...meta } = asset` used by `saveAssetToDb` and
`updateAssetInDb`: everything except the URL fields and the thumbnail
blob. -/
def Asset.metaPart (a : Asset) : StoredAsset :=
  { id := a.id, name := a.name, description := a.description,
    categoryId := a.categoryId, type := a.type, metadata := a.metadata,
    shape := a.shape, color := a.color, doubleSide := a.doubleSide,
    fileSize := a.fileSize, thumbnailBlob := none, tags := a.tags }

/-- Row of the `files` table (`AssetFile` in `db.ts`).  `glb` is optional at
the store level: legacy rows may lack it, which `updateAssetInDb` guards
against with `existingFiles?.glb || new Blob()`. -/
structure AssetFile where
  assetId : String
  glb : Option Blob
  unity : Option Blob
  zip : Option Blob
  deriving DecidableEq

/-- The `files` argument of `saveAssetToDb`: a required glb and three
optional slots. -/
structure SaveFiles where
  glb : Blob
  thumbnail : Option Blob
  unity : Option Blob
  zip : Option Blob
  deriving DecidableEq

/-- The two Dexie tables of `AppDatabase`. -/
structure Db where
  assets : Table StoredAsset
  files : Table AssetFile
  deriving DecidableEq

/-- The freshly created database. -/
def emptyDb : Db := { assets := [], files := [] }

/-- The guard `meta.categoryId && meta.categoryId !== 'all' ?
meta.categoryId : 'prop'` shared by `saveAssetToDb` and
`updateAssetInDb`. -/
def validCategoryId (c : Option String) : String :=
  match c with
  | some s => if s ≠ "" ∧ s ≠ "all" then s else "prop"
  | none => "prop"

/-- `saveAssetToDb`: split the asset into metadata and files, sanitize the
category, and put both rows inside one `rw` transaction (modelled as a
single atomic state update). -/
def saveAssetToDb (db : Db) (asset : Asset) (files : SaveFiles) : Db :=
  let storedAsset : StoredAsset :=
    { asset.metaPart with
        categoryId := some (validCategoryId asset.categoryId),
        thumbnailBlob := files.thumbnail }
  let assetFiles : AssetFile :=
    { assetId := asset.id, glb := some files.glb,
      unity := files.unity, zip := files.zip }
  { assets := tablePut db.assets asset.id storedAsset,
    files := tablePut db.files asset.id assetFiles }

/-- The transactional body of `deleteAssetFromDb`: remove both tables'
rows for the identifier in one `rw` transaction. -/
def deleteAssetTables (db : Db) (id : String) : Db :=
  { assets := tableDel db.assets id, files := tableDel db.files id }

/-- `updateAssetInDb`: read the existing files row, rebuild metadata with a
sanitized category and `newThumbnailBlob || asset.thumbnailBlob`, rebuild
the files row with `existingFiles?.glb || new Blob()` and
`newBlob || existing` per optional slot, then put the metadata always and
the files row only when one already existed. -/
def updateAssetInDb (db : Db) (asset : Asset)
    (newThumbnailBlob newUnityBlob newZipBlob : Option Blob) : Db :=
  let existingFiles := tableGet db.files asset.id
  let updatedMeta : StoredAsset :=
    { asset.metaPart with
        categoryId := some (validCategoryId asset.categoryId),
        thumbnailBlob := jsOr newThumbnailBlob asset.thumbnailBlob }
  let updatedFiles : AssetFile :=
    { assetId := asset.id,
      glb := some (((existingFiles.bind (fun f => f.glb)).getD emptyBlob)),
      unity := jsOr newUnityBlob (existingFiles.bind (fun f => f.unity)),
      zip := jsOr newZipBlob (existingFiles.bind (fun f => f.zip)) }
  { assets := tablePut db.assets asset.id updatedMeta,
    files :=
      match existingFiles with
      | some _ => tablePut db.files asset.id updatedFiles
      | none => db.files }

/-! ## Blob URL handle cache (`db.ts`) -/

/-- `MAX_BLOB_URL_CACHE_SIZE`. -/
def MAX_BLOB_URL_CACHE_SIZE : Nat := 50

/-- State of the module-level blob-URL registry: the insertion-ordered
`blobUrlCache` map, a fresh-URL counter standing for
`URL.createObjectURL`, the list of URLs passed to `URL.revokeObjectURL`
in order, and an instrumentation counter of `cleanupBlobUrlCache`
removals. -/
structure BlobUrlCache where
  entries : Table String
  nextId : Nat
  revoked : List String
  evictions : Nat
  deriving DecidableEq

/-- The registry at module load: empty map, nothing revoked. -/
def emptyBlobUrlCache : BlobUrlCache :=
  { entries := [], nextId := 0, revoked := [], evictions := 0 }

/-- `URL.createObjectURL`: each call yields a fresh `blob:` URL. -/
def createObjectURL (n : Nat) : String := "blob:obj-" ++ toString n

/-- `isBlobUrlValid`: non-blob URLs count as valid, blob URLs must keep the
`blob:` scheme and exceed five characters.  `url.startsWith('blob:')` is
expressed over the character lists so that it both evaluates and admits
proofs. -/
def isBlobUrlValid (url : String) : Bool :=
  if ¬ (("blob:".data).isPrefixOf url.data) then true
  else ("blob:".data).isPrefixOf url.data && url.length > 5

/-- `cleanupBlobUrlCache`: when the map holds more than the bound, take the
first (oldest-inserted) key, revoke its URL and remove the entry.  The
`if (firstKey)` and `if (urlToRevoke)` guards skip falsy (empty) keys and
URLs exactly as the source does. -/
def cleanupBlobUrlCache (st : BlobUrlCache) : BlobUrlCache :=
  if st.entries.length > MAX_BLOB_URL_CACHE_SIZE then
    match st.entries.head? with
    | some (firstKey, _) =>
        if firstKey ≠ "" then
          let revoked1 :=
            match tableGet st.entries firstKey with
            | some u => if u ≠ "" then st.revoked ++ [u] else st.revoked
            | none => st.revoked
          { entries := tableDel st.entries firstKey, nextId := st.nextId,
            revoked := revoked1, evictions := st.evictions + 1 }
        else st
    | none => st
  else st

/-- Tail of `getOrCreateBlobURL` once the cached-and-valid fast path has
been ruled out: clean up past the bound, then allocate and register a new
URL for the key. -/
def createAndRegisterBlobURL (st : BlobUrlCache) (cacheKey : String) :
    String × BlobUrlCache :=
  let st1 := cleanupBlobUrlCache st
  let newUrl := createObjectURL st1.nextId
  (newUrl,
   { entries := tablePut st1.entries cacheKey newUrl, nextId := st1.nextId + 1,
     revoked := st1.revoked, evictions := st1.evictions })

/-- `getOrCreateBlobURL`: return the cached URL when present, valid and not
forced to regenerate; otherwise drop and revoke any stale cached URL,
clean up, and create a fresh one.  The blob argument only feeds
`URL.createObjectURL` and carries no information in the model. -/
def getOrCreateBlobURL (st : BlobUrlCache) (blob : Blob) (cacheKey : String)
    (forceRegenerate : Bool) : String × BlobUrlCache :=
  let _ := blob
  match tableGet st.entries cacheKey with
  | some cached =>
      if ¬ forceRegenerate ∧ isBlobUrlValid cached then (cached, st)
      else
        createAndRegisterBlobURL
          { st with entries := tableDel st.entries cacheKey,
                    revoked := st.revoked ++ [cached] }
          cacheKey
  | none => createAndRegisterBlobURL st cacheKey

/-- `revokeBlobUrlsForAsset`: walk the four slot keys of the identifier,
revoking and removing whichever live URLs are registered; a falsy (empty)
stored URL is skipped entirely, as in the source. -/
def revokeSlotKey (st : BlobUrlCache) (key : String) : BlobUrlCache :=
  match tableGet st.entries key with
  | some url =>
      if url ≠ "" then
        { st with entries := tableDel st.entries key,
                  revoked := st.revoked ++ [url] }
      else st
  | none => st

/-- The slot keys `id:glb`, `id:thumbnail`, `id:unity`, `id:zip`. -/
def slotKeys (assetId : String) : List String :=
  [assetId ++ ":glb", assetId ++ ":thumbnail",
   assetId ++ ":unity", assetId ++ ":zip"]

/-- Public revocation entry point used when an asset is deleted. -/
def revokeBlobUrlsForAsset (st : BlobUrlCache) (assetId : String) :
    BlobUrlCache :=
  (slotKeys assetId).foldl revokeSlotKey st

/-- `deleteAssetFromDb`: revoke the asset's blob URLs, then remove both
tables' rows inside one transaction. -/
def deleteAssetFromDb (st : BlobUrlCache) (db : Db) (id : String) :
    BlobUrlCache × Db :=
  (revokeBlobUrlsForAsset st id, deleteAssetTables db id)

/-! ## Remote catalog client (`serverSync.ts`)

Network effects are passed in explicitly: the outcome of each HTTP call is
a parameter, and every function additionally reports the list of requests
it attempted, so that "no network call is made" is a provable statement.
-/

/-- One attempted HTTP request. -/
structure NetRequest where
  method : String
  url : String
  timeRemaining : Option Nat
  deriving DecidableEq

/-- Outcome of a single remote HTTP call as the source distinguishes it:
a 2xx response, a non-ok status, or a thrown network error. -/
inductive HttpOutcome where
  | ok
  | badStatus
  | netError
  deriving DecidableEq

/-- Result of one remote catalog call: the boolean the source resolves
with, plus the requests attempted. -/
structure RemoteCallResult where
  ok : Bool
  reqs : List NetRequest
  deriving DecidableEq

/-- JS `String.prototype.trim`: drop whitespace from both ends.  Written
over the character list so that it evaluates by kernel reduction. -/
def jsTrim (s : String) : String :=
  String.mk
    (((s.data.dropWhile Char.isWhitespace).reverse.dropWhile
        Char.isWhitespace).reverse)

/-- The disconnected-mode guard `!SERVER_URL || SERVER_URL.trim() === ''`
shared by every function of `serverSync.ts`. -/
def serverUnconfigured (serverUrl : String) : Bool :=
  serverUrl = "" || jsTrim serverUrl = ""

/-- Response to `GET /api/assets` as `syncFromServer` inspects it: a thrown
fetch, a non-ok status, a JSON body that is not an array, or the asset
array. -/
inductive ListResponse where
  | netError
  | badStatus
  | notArray
  | assets (l : List Asset)

/-- The URL normalizer `fixUrl`: absolute URLs pass through, relative ones
are prefixed with the server base address. -/
def fixUrl (serverUrl u : String) : String :=
  if u.startsWith "http" then u else serverUrl ++ u

/-- Accumulator of `syncFromServer`: the database being updated and the
requests attempted so far. -/
structure SyncState where
  db : Db
  reqs : List NetRequest
  deriving DecidableEq

/-- Download of one optional slot URL inside `syncFromServer`: fetch only
when the field is truthy; a non-ok response or a thrown fetch yields no
blob. -/
def optionalSlotFetch (serverUrl : String) (fetchBlob : String → Option Blob)
    (field : Option String) (s : SyncState) : Option Blob × SyncState :=
  if jsTruthyStr field then
    let target := fixUrl serverUrl (field.getD "")
    (fetchBlob target,
     { s with reqs := s.reqs ++ [{ method := "GET", url := target,
                                   timeRemaining := none }] })
  else (none, s)

/-- The per-asset loop body of `syncFromServer`: skip assets with a falsy
`url` or an unfetchable glb, download the optional slots, strip the URL
fields, and save the record with its blobs into the local store. -/
def syncAssetStep (serverUrl : String) (fetchBlob : String → Option Blob)
    (s : SyncState) (asset : Asset) : SyncState :=
  if jsTruthyStr asset.url then
    let glbUrl := fixUrl serverUrl (asset.url.getD "")
    let s1 : SyncState :=
      { s with reqs := s.reqs ++ [{ method := "GET", url := glbUrl,
                                    timeRemaining := none }] }
    match fetchBlob glbUrl with
    | none => s1
    | some glbBlob =>
        let r2 := optionalSlotFetch serverUrl fetchBlob asset.thumbnail s1
        let r3 := optionalSlotFetch serverUrl fetchBlob asset.unityPackageUrl
          r2.2
        let r4 := optionalSlotFetch serverUrl fetchBlob asset.fbxZipUrl r3.2
        let assetToSave : Asset :=
          { asset with url := none, thumbnail := none,
                       unityPackageUrl := none, fbxZipUrl := none }
        let dlFiles : SaveFiles :=
          { glb := glbBlob, thumbnail := r2.1,
            unity := r3.1, zip := r4.1 }
        { r4.2 with db := saveAssetToDb r4.2.db assetToSave dlFiles }
  else s

/-- Result of `syncFromServer`. -/
structure SyncOutcome where
  db : Db
  ok : Bool
  reqs : List NetRequest

/-- `syncFromServer`: in disconnected mode return `false` without touching
the network; otherwise list the remote assets and upsert each of them into
the local store, returning `true` once the loop finishes. -/
def syncFromServer (serverUrl : String) (resp : ListResponse)
    (fetchBlob : String → Option Blob) (db : Db) : SyncOutcome :=
  if serverUnconfigured serverUrl then
    { db := db, ok := false, reqs := [] }
  else
    let listReq : NetRequest :=
      { method := "GET", url := serverUrl ++ "/api/assets",
        timeRemaining := none }
    match resp with
    | .netError => { db := db, ok := false, reqs := [listReq] }
    | .badStatus => { db := db, ok := false, reqs := [listReq] }
    | .notArray => { db := db, ok := false, reqs := [listReq] }
    | .assets l =>
        let final :=
          l.foldl (syncAssetStep serverUrl fetchBlob)
            { db := db, reqs := [listReq] }
        { db := final.db, ok := true, reqs := final.reqs }

/-- `isServerAvailable`: in disconnected mode `false` with no probe;
otherwise one `HEAD` probe carrying a 2000 ms abort deadline, `false` on a
non-ok status and on any thrown error (timeout included), never
throwing. -/
def isServerAvailable (serverUrl : String) (probe : HttpOutcome) :
    RemoteCallResult :=
  if serverUnconfigured serverUrl then { ok := false, reqs := [] }
  else
    let req : NetRequest :=
      { method := "HEAD", url := serverUrl ++ "/api/assets",
        timeRemaining := some 2000 }
    match probe with
    | .ok => { ok := true, reqs := [req] }
    | .badStatus => { ok := false, reqs := [req] }
    | .netError => { ok := false, reqs := [req] }

/-- `syncAssetToServer`: multipart `POST /api/assets`; `false` without a
request in disconnected mode, `true` only on a 2xx response. -/
def syncAssetToServer (serverUrl : String) (outcome : HttpOutcome)
    (asset : Asset) (files : SaveFiles) : RemoteCallResult :=
  let _ := files
  if serverUnconfigured serverUrl then { ok := false, reqs := [] }
  else
    let req : NetRequest :=
      { method := "POST", url := serverUrl ++ "/api/assets",
        timeRemaining := none }
    let _ := asset
    match outcome with
    | .ok => { ok := true, reqs := [req] }
    | .badStatus => { ok := false, reqs := [req] }
    | .netError => { ok := false, reqs := [req] }

/-- `updateAssetMetadataOnServer`: JSON `PUT /api/assets/:id`. -/
def updateAssetMetadataOnServer (serverUrl : String) (outcome : HttpOutcome)
    (asset : Asset) : RemoteCallResult :=
  if serverUnconfigured serverUrl then { ok := false, reqs := [] }
  else
    let req : NetRequest :=
      { method := "PUT", url := serverUrl ++ "/api/assets/" ++ asset.id,
        timeRemaining := none }
    match outcome with
    | .ok => { ok := true, reqs := [req] }
    | .badStatus => { ok := false, reqs := [req] }
    | .netError => { ok := false, reqs := [req] }

/-- The all-optional files argument of `updateAssetFilesOnServer`. -/
structure PartialFiles where
  glb : Option Blob
  thumbnail : Option Blob
  unity : Option Blob
  zip : Option Blob
  deriving DecidableEq

/-- `updateAssetFilesOnServer`: multipart `PUT /api/assets/:id/files`. -/
def updateAssetFilesOnServer (serverUrl : String) (outcome : HttpOutcome)
    (asset : Asset) (files : PartialFiles) : RemoteCallResult :=
  let _ := files
  if serverUnconfigured serverUrl then { ok := false, reqs := [] }
  else
    let req : NetRequest :=
      { method := "PUT",
        url := serverUrl ++ "/api/assets/" ++ asset.id ++ "/files",
        timeRemaining := none }
    match outcome with
    | .ok => { ok := true, reqs := [req] }
    | .badStatus => { ok := false, reqs := [req] }
    | .netError => { ok := false, reqs := [req] }

/-- `deleteAssetFromServer`: `DELETE /api/assets/:id`. -/
def deleteAssetFromServer (serverUrl : String) (outcome : HttpOutcome)
    (assetId : String) : RemoteCallResult :=
  if serverUnconfigured serverUrl then { ok := false, reqs := [] }
  else
    let req : NetRequest :=
      { method := "DELETE", url := serverUrl ++ "/api/assets/" ++ assetId,
        timeRemaining := none }
    match outcome with
    | .ok => { ok := true, reqs := [req] }
    | .badStatus => { ok := false, reqs := [req] }
    | .netError => { ok := false, reqs := [req] }

/-! ## Synchronization orchestrator (`AssetContext.tsx`)

Each mutating operation is embedded as a function returning the new local
state and an ordered event trace.  `await e` places the push's settlement
event before the operation's return event; a fire-and-forget
`e.catch(...)` places the settlement after the return, on the microtask
queue. -/

/-- Observable events of one orchestrator operation, in order. -/
inductive OpEvent where
  | localWrite
  | pushStart
  | pushEnd (ok : Bool)
  | opReturn
  deriving DecidableEq

/-- Whether event `a` occurs strictly before event `b` in the trace. -/
def occursBefore : List OpEvent → OpEvent → OpEvent → Bool
  | [], _, _ => false
  | e :: rest, a, b =>
      if e = a then rest.contains b
      else if e = b then false
      else occursBefore rest a b

/-- Orchestrator-owned local state: the blob-URL registry and the two
Dexie tables. -/
structure OrchState where
  cache : BlobUrlCache
  db : Db
  deriving DecidableEq

/-- Result of one orchestrator operation. -/
structure OpOut where
  st : OrchState
  events : List OpEvent
  deriving DecidableEq

namespace AssetContext

/-- `addAsset`: save locally (awaited), then push the creation to the
server (awaited, failure logged only). -/
def addAsset (serverUrl : String) (outcome : HttpOutcome) (s : OrchState)
    (newAsset : Asset) (files : SaveFiles) : OpOut :=
  let db1 := saveAssetToDb s.db newAsset files
  let push := syncAssetToServer serverUrl outcome newAsset files
  { st := { s with db := db1 },
    events := [.localWrite, .pushStart, .pushEnd push.ok, .opReturn] }

/-- `deleteAsset`: delete locally (awaited), then push the deletion to the
server (awaited, failure logged only). -/
def deleteAsset (serverUrl : String) (outcome : HttpOutcome) (s : OrchState)
    (asset : Asset) : OpOut :=
  let (cache1, db1) := deleteAssetFromDb s.cache s.db asset.id
  let push := deleteAssetFromServer serverUrl outcome asset.id
  { st := { cache := cache1, db := db1 },
    events := [.localWrite, .pushStart, .pushEnd push.ok, .opReturn] }

/-- `renameAsset`: update the record locally (awaited), then push the
metadata (awaited, failure logged only). -/
def renameAsset (serverUrl : String) (outcome : HttpOutcome) (s : OrchState)
    (asset : Asset) (newName : String) : OpOut :=
  let updatedAsset := { asset with name := newName }
  let db1 := updateAssetInDb s.db updatedAsset none none none
  let push := updateAssetMetadataOnServer serverUrl outcome updatedAsset
  { st := { s with db := db1 },
    events := [.localWrite, .pushStart, .pushEnd push.ok, .opReturn] }

/-- Which of the two replaceable binary slots `updateAssetFile` handles. -/
inductive FileSlot where
  | unity
  | zip
  deriving DecidableEq

/-- `updateAssetFile`: write the new binary into the chosen slot locally
(awaited), then push the file to the server (awaited, failure logged
only). -/
def updateAssetFile (serverUrl : String) (outcome : HttpOutcome)
    (s : OrchState) (asset : Asset) (slot : FileSlot) (file : Blob) : OpOut :=
  let updatedAsset := asset
  let db1 :=
    match slot with
    | .unity => updateAssetInDb s.db updatedAsset none (some file) none
    | .zip => updateAssetInDb s.db updatedAsset none none (some file)
  let pushFiles : PartialFiles :=
    { glb := none, thumbnail := none,
      unity := match slot with | .unity => some file | .zip => none,
      zip := match slot with | .unity => none | .zip => some file }
  let push := updateAssetFilesOnServer serverUrl outcome updatedAsset pushFiles
  { st := { s with db := db1 },
    events := [.localWrite, .pushStart, .pushEnd push.ok, .opReturn] }

/-- `updateCategory`: update the record locally (awaited), then start the
metadata push without awaiting it; the push settles after the operation
has already returned. -/
def updateCategory (serverUrl : String) (outcome : HttpOutcome)
    (s : OrchState) (asset : Asset) (newCategoryId : String) : OpOut :=
  let updatedAsset := { asset with categoryId := some newCategoryId }
  let db1 := updateAssetInDb s.db updatedAsset none none none
  let push := updateAssetMetadataOnServer serverUrl outcome updatedAsset
  { st := { s with db := db1 },
    events := [.localWrite, .pushStart, .opReturn, .pushEnd push.ok] }

/-- `updateTags`: update the record locally (awaited), then start the
metadata push without awaiting it. -/
def updateTags (serverUrl : String) (outcome : HttpOutcome) (s : OrchState)
    (asset : Asset) (newTags : List String) : OpOut :=
  let updatedAsset := { asset with tags := some newTags }
  let db1 := updateAssetInDb s.db updatedAsset none none none
  let push := updateAssetMetadataOnServer serverUrl outcome updatedAsset
  { st := { s with db := db1 },
    events := [.localWrite, .pushStart, .opReturn, .pushEnd push.ok] }

/-- The partial-update argument of `updateAssetInfo`. -/
structure InfoUpdates where
  name : Option String
  description : Option String
  categoryId : Option String
  tags : Option (List String)
  deriving DecidableEq

/-- The guarded spread of `updateAssetInfo`: `name` and `categoryId` apply
only when truthy, `description` whenever it is not `undefined`, `tags`
whenever present (arrays are always truthy). -/
def applyInfoUpdates (asset : Asset) (updates : InfoUpdates) : Asset :=
  { asset with
      name := if jsTruthyStr updates.name then updates.name.getD asset.name
              else asset.name,
      description :=
        match updates.description with
        | some d => d
        | none => asset.description,
      categoryId := if jsTruthyStr updates.categoryId then updates.categoryId
                    else asset.categoryId,
      tags :=
        match updates.tags with
        | some t => some t
        | none => asset.tags }

/-- `updateAssetInfo`: merge the supplied fields, update the record locally
(awaited), then push the metadata (awaited, failure logged only). -/
def updateAssetInfo (serverUrl : String) (outcome : HttpOutcome)
    (s : OrchState) (asset : Asset) (updates : InfoUpdates) : OpOut :=
  let updatedAsset := applyInfoUpdates asset updates
  let db1 := updateAssetInDb s.db updatedAsset none none none
  let push := updateAssetMetadataOnServer serverUrl outcome updatedAsset
  { st := { s with db := db1 },
    events := [.localWrite, .pushStart, .pushEnd push.ok, .opReturn] }

/-- Result of the bulk `deleteAssets` operation: the final local state and
the success/failure counts shown to the user. -/
structure BulkDeleteOut where
  st : OrchState
  successCount : Nat
  failCount : Nat
  deriving DecidableEq

/-- The loop of `deleteAssets`: delete each asset locally, fire the remote
deletion whose boolean result is discarded, and count the iteration as a
success (the failure branch is reachable only through a local-store
exception, which the store model does not raise). -/
def deleteAssetsLoop (serverUrl : String) (remote : String → HttpOutcome) :
    OrchState → Nat → Nat → List Asset → BulkDeleteOut
  | s, succ, fail, [] => { st := s, successCount := succ, failCount := fail }
  | s, succ, fail, asset :: rest =>
      let (cache1, db1) := deleteAssetFromDb s.cache s.db asset.id
      let _ := deleteAssetFromServer serverUrl (remote asset.id) asset.id
      deleteAssetsLoop serverUrl remote { cache := cache1, db := db1 }
        (succ + 1) fail rest

/-- `deleteAssets`: early return on an empty selection, otherwise run the
per-asset loop and report the counts. -/
def deleteAssets (serverUrl : String) (remote : String → HttpOutcome)
    (s : OrchState) (assetsToDelete : List Asset) : BulkDeleteOut :=
  if assetsToDelete.length = 0 then
    { st := s, successCount := 0, failCount := 0 }
  else deleteAssetsLoop serverUrl remote s 0 0 assetsToDelete

end AssetContext

/-! ## Operation sequences for store invariants -/

/-- The two transactional writers of the claim on `putAsset` /
`deleteAsset` atomicity. -/
inductive DbOp where
  | save (asset : Asset) (files : SaveFiles)
  | del (id : String)

/-- Apply one transactional operation; each constructor is a single atomic
Dexie transaction. -/
def applyDbOp (db : Db) : DbOp → Db
  | .save asset files => saveAssetToDb db asset files
  | .del id => deleteAssetTables db id

/-- Both tables agree on which identifiers they hold. -/
def pairedTables (db : Db) : Prop :=
  ∀ id, (tableGet db.assets id).isSome ↔ (tableGet db.files id).isSome

/-- All three local writers, for the category invariant. -/
inductive LocalOp where
  | save (asset : Asset) (files : SaveFiles)
  | update (asset : Asset) (t u z : Option Blob)
  | del (id : String)

/-- Apply one local-store operation. -/
def applyLocalOp (db : Db) : LocalOp → Db
  | .save asset files => saveAssetToDb db asset files
  | .update asset t u z => updateAssetInDb db asset t u z
  | .del id => deleteAssetTables db id

/-- Every stored metadata record has a defined category that is not the
pseudo-category `all`. -/
def goodCategories (db : Db) : Prop :=
  ∀ id sa, tableGet db.assets id = some sa →
    sa.categoryId ≠ none ∧ sa.categoryId ≠ some "all"

/-! ## Trace predicates -/

/-- The local write has completed and a push starts later in the trace. -/
def localWriteBeforePushStart : List OpEvent → Bool
  | [] => false
  | .pushStart :: _ => false
  | .localWrite :: rest => rest.contains .pushStart
  | _ :: rest => localWriteBeforePushStart rest

/-- The remote push settles before the operation returns to its caller,
i.e. the push was awaited. -/
def pushSettledBeforeReturn : List OpEvent → Bool
  | [] => false
  | .pushEnd _ :: _ => true
  | .opReturn :: _ => false
  | _ :: rest => pushSettledBeforeReturn rest

/-! ## Table lemmas -/

theorem tableGet_put_self {V : Type} (t : Table V) (k : String) (v : V) :
    tableGet (tablePut t k v) k = some v := by
  induction t with
  | nil => simp [tablePut, tableGet]
  | cons hd tl ih =>
      obtain ⟨k0, v0⟩ := hd
      by_cases h : k0 = k
      · simp [tablePut, tableGet, h]
      · simp [tablePut, tableGet, h, ih]

theorem tableGet_put_other {V : Type} (t : Table V) (k k1 : String) (v : V)
    (h : k1 ≠ k) : tableGet (tablePut t k v) k1 = tableGet t k1 := by
  have h2 : ¬ (k = k1) := fun hh => h hh.symm
  induction t with
  | nil => simp [tablePut, tableGet, h2]
  | cons hd tl ih =>
      obtain ⟨k0, v0⟩ := hd
      by_cases h0 : k0 = k
      · subst h0
        simp [tablePut, tableGet, h2]
      · by_cases h1 : k0 = k1
        · simp [tablePut, tableGet, h0, h1, h]
        · simp [tablePut, tableGet, h0, h1, ih]

theorem tableGet_del_self {V : Type} (t : Table V) (k : String) :
    tableGet (tableDel t k) k = none := by
  induction t with
  | nil => simp [tableDel, tableGet]
  | cons hd tl ih =>
      obtain ⟨k0, v0⟩ := hd
      by_cases h : k0 = k
      · simp [tableDel, h, ih]
      · simp [tableDel, tableGet, h, ih]

theorem tableGet_del_other {V : Type} (t : Table V) (k k1 : String)
    (h : k1 ≠ k) : tableGet (tableDel t k) k1 = tableGet t k1 := by
  have h2 : ¬ (k = k1) := fun hh => h hh.symm
  induction t with
  | nil => simp [tableDel, tableGet]
  | cons hd tl ih =>
      obtain ⟨k0, v0⟩ := hd
      by_cases h0 : k0 = k
      · subst h0
        simp [tableDel, tableGet, h2, ih]
      · by_cases h1 : k0 = k1
        · simp [tableDel, tableGet, h0, h1, h]
        · simp [tableDel, tableGet, h0, h1, ih]

/-- Wholesale lookup description of a put. -/
theorem tableGet_put {V : Type} (t : Table V) (k k1 : String) (v : V) :
    tableGet (tablePut t k v) k1 =
      if k1 = k then some v else tableGet t k1 := by
  by_cases h : k1 = k
  · subst h
    simp [tableGet_put_self]
  · simp [h, tableGet_put_other t k k1 v h]

/-- Wholesale lookup description of a delete. -/
theorem tableGet_del {V : Type} (t : Table V) (k k1 : String) :
    tableGet (tableDel t k) k1 =
      if k1 = k then none else tableGet t k1 := by
  by_cases h : k1 = k
  · subst h
    simp [tableGet_del_self]
  · simp [h, tableGet_del_other t k k1 h]

/-! ## Store-level helper lemmas -/

theorem saveAssetToDb_get_self (db : Db) (a : Asset) (files : SaveFiles) :
    tableGet (saveAssetToDb db a files).assets a.id =
      some { a.metaPart with
               categoryId := some (validCategoryId a.categoryId),
               thumbnailBlob := files.thumbnail } := by
  simp [saveAssetToDb, tableGet_put_self]

theorem saveAssetToDb_get_files_self (db : Db) (a : Asset)
    (files : SaveFiles) :
    tableGet (saveAssetToDb db a files).files a.id =
      some { assetId := a.id, glb := some files.glb,
             unity := files.unity, zip := files.zip } := by
  simp [saveAssetToDb, tableGet_put_self]

theorem updateAssetInDb_get_self (db : Db) (a : Asset)
    (t u z : Option Blob) :
    tableGet (updateAssetInDb db a t u z).assets a.id =
      some { a.metaPart with
               categoryId := some (validCategoryId a.categoryId),
               thumbnailBlob := jsOr t a.thumbnailBlob } := by
  simp [updateAssetInDb, tableGet_put_self]

/-- A concrete asset used by the closed instance theorems. -/
def mkAsset (id : String) : Asset :=
  { id := id, name := "Chair", description := "", categoryId := some "prop",
    type := "model", url := none, thumbnail := none,
    metadata := { vertices := 8, polygons := 12, materialCount := 1,
                  createdDate := "2024-01-01" },
    shape := none, color := none, unityPackageUrl := none, fbxZipUrl := none,
    doubleSide := none, fileSize := none, thumbnailBlob := none,
    tags := none }

/-- A concrete orchestrator state holding nothing. -/
def emptyOrchState : OrchState :=
  { cache := emptyBlobUrlCache, db := emptyDb }

/-! ## Claims -/

/-- C6: with no remote address configured, `syncFromServer`,
`syncAssetToServer`, `updateAssetMetadataOnServer`,
`updateAssetFilesOnServer` and `deleteAssetFromServer` return the neutral
failure value `false` without attempting any network request, and
`isServerAvailable` returns `false`; for every configuration the
reachability probe is a `HEAD` request carrying a 2000 ms deadline, and a
thrown probe (timeout included) yields `false` rather than an
exception. -/
theorem serverSync_disconnected_noop (serverUrl : String) :
    (serverUnconfigured serverUrl = true →
      (∀ resp fetchBlob db, syncFromServer serverUrl resp fetchBlob db =
          { db := db, ok := false, reqs := [] }) ∧
      (∀ outcome asset files, syncAssetToServer serverUrl outcome asset files =
          { ok := false, reqs := [] }) ∧
      (∀ outcome asset, updateAssetMetadataOnServer serverUrl outcome asset =
          { ok := false, reqs := [] }) ∧
      (∀ outcome asset files,
          updateAssetFilesOnServer serverUrl outcome asset files =
          { ok := false, reqs := [] }) ∧
      (∀ outcome id, deleteAssetFromServer serverUrl outcome id =
          { ok := false, reqs := [] }) ∧
      (∀ probe, isServerAvailable serverUrl probe =
          { ok := false, reqs := [] })) ∧
    (∀ probe req, req ∈ (isServerAvailable serverUrl probe).reqs →
        req.method = "HEAD" ∧ req.timeRemaining = some 2000) ∧
    (isServerAvailable serverUrl HttpOutcome.netError).ok = false := by
  constructor
  · intro hu
    refine ⟨?_, ?_, ?_, ?_, ?_, ?_⟩
    · intro resp fetchBlob db
      simp [syncFromServer, hu]
    · intro outcome asset files
      simp [syncAssetToServer, hu]
    · intro outcome asset
      simp [updateAssetMetadataOnServer, hu]
    · intro outcome asset files
      simp [updateAssetFilesOnServer, hu]
    · intro outcome id
      simp [deleteAssetFromServer, hu]
    · intro probe
      simp [isServerAvailable, hu]
  · constructor
    · intro probe req hreq
      by_cases hu : serverUnconfigured serverUrl = true
      · simp [isServerAvailable, hu] at hreq
      · simp only [Bool.not_eq_true] at hu
        cases probe <;>
          simp [isServerAvailable, hu] at hreq <;>
          simp [hreq]
    · by_cases hu : serverUnconfigured serverUrl = true
      · simp [isServerAvailable, hu]
      · simp only [Bool.not_eq_true] at hu
        simp [isServerAvailable, hu]

/-- C6 witness: the disconnected guard and the probe facts at concrete
inputs, the unconfigured-address hypothesis discharged at the empty
string. -/
theorem serverSync_disconnected_noop_witness :
    syncFromServer "" (ListResponse.assets [mkAsset "a1"]) (fun _ => none)
        emptyDb = { db := emptyDb, ok := false, reqs := [] } ∧
    deleteAssetFromServer "" HttpOutcome.ok "a1" = { ok := false, reqs := [] } ∧
    isServerAvailable "" HttpOutcome.netError = { ok := false, reqs := [] } :=
  ⟨((serverSync_disconnected_noop "").1 rfl).1
      (ListResponse.assets [mkAsset "a1"]) (fun _ => none) emptyDb,
   ((serverSync_disconnected_noop "").1 rfl).2.2.2.2.1 HttpOutcome.ok "a1",
   ((serverSync_disconnected_noop "").1 rfl).2.2.2.2.2 HttpOutcome.netError⟩

/-- C1 counterexample: in `updateTags` the metadata push is started but not
awaited — the operation returns to its caller before the push settles — so
the claim that every listed mutating operation awaits its remote push
fails at this concrete call. -/
theorem updateTags_push_not_awaited_cex :
    pushSettledBeforeReturn
      ((AssetContext.updateTags "http://srv" HttpOutcome.ok emptyOrchState
          (mkAsset "a1") ["tag"]).events) = false ∧
    pushSettledBeforeReturn
      ((AssetContext.updateCategory "http://srv" HttpOutcome.ok emptyOrchState
          (mkAsset "a1") "vehicle").events) = false := by
  exact ⟨rfl, rfl⟩

/-- C1 (amended): every user-initiated mutating operation awaits its local
cache write before starting the remote push, and its resulting local state
is exactly the local write — independent of the remote outcome, so a push
failure rolls nothing back and subsequent local metadata reads reflect the
mutation.  The push itself is awaited in `addAsset`, `deleteAsset`,
`renameAsset`, `updateAssetFile` and `updateAssetInfo`, but in
`updateCategory` and `updateTags` it is started without being awaited and
settles only after the operation has returned. -/
theorem mutating_ops_local_write_first (serverUrl : String)
    (outcome : HttpOutcome) (s : OrchState) :
    (∀ a files,
        (AssetContext.addAsset serverUrl outcome s a files).st.db =
            saveAssetToDb s.db a files ∧
        localWriteBeforePushStart
            (AssetContext.addAsset serverUrl outcome s a files).events = true ∧
        pushSettledBeforeReturn
            (AssetContext.addAsset serverUrl outcome s a files).events = true ∧
        tableGet (AssetContext.addAsset serverUrl outcome s a files).st.db.assets
            a.id ≠ none) ∧
    (∀ a,
        (AssetContext.deleteAsset serverUrl outcome s a).st.db =
            deleteAssetTables s.db a.id ∧
        localWriteBeforePushStart
            (AssetContext.deleteAsset serverUrl outcome s a).events = true ∧
        pushSettledBeforeReturn
            (AssetContext.deleteAsset serverUrl outcome s a).events = true ∧
        tableGet (AssetContext.deleteAsset serverUrl outcome s a).st.db.assets
            a.id = none) ∧
    (∀ a newName,
        (AssetContext.renameAsset serverUrl outcome s a newName).st.db =
            updateAssetInDb s.db { a with name := newName } none none none ∧
        localWriteBeforePushStart
            (AssetContext.renameAsset serverUrl outcome s a newName).events
            = true ∧
        pushSettledBeforeReturn
            (AssetContext.renameAsset serverUrl outcome s a newName).events
            = true ∧
        (tableGet (AssetContext.renameAsset serverUrl outcome s a
            newName).st.db.assets a.id).map (fun sa => sa.name)
            = some newName) ∧
    (∀ a file,
        (AssetContext.updateAssetFile serverUrl outcome s a
            AssetContext.FileSlot.unity file).st.db =
            updateAssetInDb s.db a none (some file) none ∧
        (AssetContext.updateAssetFile serverUrl outcome s a
            AssetContext.FileSlot.zip file).st.db =
            updateAssetInDb s.db a none none (some file) ∧
        localWriteBeforePushStart
            (AssetContext.updateAssetFile serverUrl outcome s a
                AssetContext.FileSlot.unity file).events = true ∧
        pushSettledBeforeReturn
            (AssetContext.updateAssetFile serverUrl outcome s a
                AssetContext.FileSlot.zip file).events = true) ∧
    (∀ a newCategoryId,
        (AssetContext.updateCategory serverUrl outcome s a
            newCategoryId).st.db =
            updateAssetInDb s.db { a with categoryId := some newCategoryId }
              none none none ∧
        localWriteBeforePushStart
            (AssetContext.updateCategory serverUrl outcome s a
                newCategoryId).events = true ∧
        pushSettledBeforeReturn
            (AssetContext.updateCategory serverUrl outcome s a
                newCategoryId).events = false ∧
        (tableGet (AssetContext.updateCategory serverUrl outcome s a
            newCategoryId).st.db.assets a.id).map (fun sa => sa.categoryId)
            = some (some (validCategoryId (some newCategoryId)))) ∧
    (∀ a newTags,
        (AssetContext.updateTags serverUrl outcome s a newTags).st.db =
            updateAssetInDb s.db { a with tags := some newTags }
              none none none ∧
        localWriteBeforePushStart
            (AssetContext.updateTags serverUrl outcome s a newTags).events
            = true ∧
        pushSettledBeforeReturn
            (AssetContext.updateTags serverUrl outcome s a newTags).events
            = false ∧
        (tableGet (AssetContext.updateTags serverUrl outcome s a
            newTags).st.db.assets a.id).map (fun sa => sa.tags)
            = some (some newTags)) ∧
    (∀ a updates,
        (AssetContext.updateAssetInfo serverUrl outcome s a updates).st.db =
            updateAssetInDb s.db (AssetContext.applyInfoUpdates a updates)
              none none none ∧
        localWriteBeforePushStart
            (AssetContext.updateAssetInfo serverUrl outcome s a
                updates).events = true ∧
        pushSettledBeforeReturn
            (AssetContext.updateAssetInfo serverUrl outcome s a
                updates).events = true ∧
        (tableGet (AssetContext.updateAssetInfo serverUrl outcome s a
            updates).st.db.assets a.id).map (fun sa => sa.name)
            = some (AssetContext.applyInfoUpdates a updates).name) := by
  refine ⟨?_, ?_, ?_, ?_, ?_, ?_, ?_⟩
  · intro a files
    refine ⟨rfl, rfl, rfl, ?_⟩
    simp [AssetContext.addAsset, saveAssetToDb, tableGet_put_self]
  · intro a
    refine ⟨rfl, rfl, rfl, ?_⟩
    simp [AssetContext.deleteAsset, deleteAssetFromDb, deleteAssetTables,
      tableGet_del_self]
  · intro a newName
    refine ⟨rfl, rfl, rfl, ?_⟩
    have h := updateAssetInDb_get_self s.db { a with name := newName }
      none none none
    simp only [AssetContext.renameAsset]
    rw [show ({ a with name := newName } : Asset).id = a.id from rfl] at h
    rw [h]
    rfl
  · intro a file
    exact ⟨rfl, rfl, rfl, rfl⟩
  · intro a newCategoryId
    refine ⟨rfl, rfl, rfl, ?_⟩
    have h := updateAssetInDb_get_self s.db
      { a with categoryId := some newCategoryId } none none none
    simp only [AssetContext.updateCategory]
    rw [show ({ a with categoryId := some newCategoryId } : Asset).id = a.id
      from rfl] at h
    rw [h]
    rfl
  · intro a newTags
    refine ⟨rfl, rfl, rfl, ?_⟩
    have h := updateAssetInDb_get_self s.db { a with tags := some newTags }
      none none none
    simp only [AssetContext.updateTags]
    rw [show ({ a with tags := some newTags } : Asset).id = a.id from rfl] at h
    rw [h]
    rfl
  · intro a updates
    refine ⟨rfl, rfl, rfl, ?_⟩
    have h := updateAssetInDb_get_self s.db
      (AssetContext.applyInfoUpdates a updates) none none none
    simp only [AssetContext.updateAssetInfo]
    rw [show (AssetContext.applyInfoUpdates a updates).id = a.id from rfl] at h
    rw [h]
    rfl

/-! ## Bulk delete -/

theorem deleteAssetsLoop_counts (serverUrl : String)
    (remote : String → HttpOutcome) (xs : List Asset) :
    ∀ s succ fail,
      (AssetContext.deleteAssetsLoop serverUrl remote s succ fail
          xs).successCount = succ + xs.length ∧
      (AssetContext.deleteAssetsLoop serverUrl remote s succ fail
          xs).failCount = fail := by
  induction xs with
  | nil => intro s succ fail; simp [AssetContext.deleteAssetsLoop]
  | cons x rest ih =>
      intro s succ fail
      simp only [AssetContext.deleteAssetsLoop, List.length_cons]
      refine ⟨?_, (ih _ _ _).2⟩
      rw [(ih _ _ _).1]
      omega

theorem deleteAssetsLoop_absent (serverUrl : String)
    (remote : String → HttpOutcome) (xs : List Asset) :
    ∀ s succ fail id,
      tableGet s.db.assets id = none → tableGet s.db.files id = none →
      tableGet (AssetContext.deleteAssetsLoop serverUrl remote s succ fail
          xs).st.db.assets id = none ∧
      tableGet (AssetContext.deleteAssetsLoop serverUrl remote s succ fail
          xs).st.db.files id = none := by
  induction xs with
  | nil => intro s succ fail id h1 h2
           simpa [AssetContext.deleteAssetsLoop] using ⟨h1, h2⟩
  | cons x rest ih =>
      intro s succ fail id h1 h2
      simp only [AssetContext.deleteAssetsLoop, deleteAssetFromDb]
      apply ih
      · simp [deleteAssetTables, tableGet_del, h1]
      · simp [deleteAssetTables, tableGet_del, h2]

theorem deleteAssetsLoop_deletes (serverUrl : String)
    (remote : String → HttpOutcome) (xs : List Asset) :
    ∀ s succ fail a, a ∈ xs →
      tableGet (AssetContext.deleteAssetsLoop serverUrl remote s succ fail
          xs).st.db.assets a.id = none ∧
      tableGet (AssetContext.deleteAssetsLoop serverUrl remote s succ fail
          xs).st.db.files a.id = none := by
  induction xs with
  | nil => intro s succ fail a h; cases h
  | cons x rest ih =>
      intro s succ fail a h
      rcases List.mem_cons.mp h with h | h
      · subst h
        simp only [AssetContext.deleteAssetsLoop, deleteAssetFromDb]
        apply deleteAssetsLoop_absent
        · simp [deleteAssetTables, tableGet_del_self]
        · simp [deleteAssetTables, tableGet_del_self]
      · simp only [AssetContext.deleteAssetsLoop, deleteAssetFromDb]
        exact ih _ _ _ a h

/-- C8 counterexample: deleting three assets while the remote rejects the
deletion of `a2` still reports three successes and zero failures — the
counts reflect local deletions only, not the remote outcomes the claim
says they reflect. -/
theorem deleteAssets_counts_cex :
    (deleteAssetFromServer "http://srv"
        ((fun id => if id = "a2" then HttpOutcome.badStatus else
            HttpOutcome.ok) "a2") "a2").ok = false ∧
    (AssetContext.deleteAssets "http://srv"
        (fun id => if id = "a2" then HttpOutcome.badStatus else HttpOutcome.ok)
        emptyOrchState
        [mkAsset "a1", mkAsset "a2", mkAsset "a3"]).successCount = 3 ∧
    (AssetContext.deleteAssets "http://srv"
        (fun id => if id = "a2" then HttpOutcome.badStatus else HttpOutcome.ok)
        emptyOrchState
        [mkAsset "a1", mkAsset "a2", mkAsset "a3"]).failCount = 0 := by
  refine ⟨by decide, by decide, by decide⟩

/-- C8 (amended): a bulk delete removes every selected asset from both
local tables regardless of the remote outcomes, and the reported result
counts local deletions — all `k` are reported as successes and none as
failures even when the remote rejects some of the pushes, whose boolean
results the loop discards (assuming the local store itself raises no
error). -/
theorem deleteAssets_local_removal_and_counts (serverUrl : String)
    (remote : String → HttpOutcome) (s : OrchState)
    (assetsToDelete : List Asset) :
    (∀ a, a ∈ assetsToDelete →
        tableGet (AssetContext.deleteAssets serverUrl remote s
            assetsToDelete).st.db.assets a.id = none ∧
        tableGet (AssetContext.deleteAssets serverUrl remote s
            assetsToDelete).st.db.files a.id = none) ∧
    (AssetContext.deleteAssets serverUrl remote s
        assetsToDelete).successCount = assetsToDelete.length ∧
    (AssetContext.deleteAssets serverUrl remote s
        assetsToDelete).failCount = 0 := by
  match assetsToDelete with
  | [] =>
      refine ⟨?_, ?_, ?_⟩
      · intro a h; cases h
      · simp [AssetContext.deleteAssets]
      · simp [AssetContext.deleteAssets]
  | x :: rest =>
      have hne : (x :: rest).length = 0 → False := by simp
      refine ⟨?_, ?_, ?_⟩
      · intro a h
        simp only [AssetContext.deleteAssets, List.length_cons]
        rw [if_neg (by simp)]
        exact deleteAssetsLoop_deletes serverUrl remote (x :: rest)
          s 0 0 a h
      · simp only [AssetContext.deleteAssets]
        rw [if_neg (by simp)]
        rw [(deleteAssetsLoop_counts serverUrl remote (x :: rest) s 0 0).1]
        omega
      · simp only [AssetContext.deleteAssets]
        rw [if_neg (by simp)]
        exact (deleteAssetsLoop_counts serverUrl remote (x :: rest) s 0 0).2

/-- C8 witness: the amended statement evaluated on three concrete assets
with one remote rejection. -/
theorem deleteAssets_local_removal_and_counts_witness :
    tableGet (AssetContext.deleteAssets "http://srv"
        (fun id => if id = "a2" then HttpOutcome.badStatus else HttpOutcome.ok)
        emptyOrchState
        [mkAsset "a1", mkAsset "a2", mkAsset "a3"]).st.db.assets "a2" = none ∧
    (AssetContext.deleteAssets "http://srv"
        (fun id => if id = "a2" then HttpOutcome.badStatus else HttpOutcome.ok)
        emptyOrchState
        [mkAsset "a1", mkAsset "a2", mkAsset "a3"]).successCount = 3 :=
  ⟨((deleteAssets_local_removal_and_counts "http://srv"
      (fun id => if id = "a2" then HttpOutcome.badStatus else HttpOutcome.ok)
      emptyOrchState [mkAsset "a1", mkAsset "a2", mkAsset "a3"]).1
      (mkAsset "a2") (by decide)).1,
   by
    rw [(deleteAssets_local_removal_and_counts "http://srv"
      (fun id => if id = "a2" then HttpOutcome.badStatus else HttpOutcome.ok)
      emptyOrchState [mkAsset "a1", mkAsset "a2", mkAsset "a3"]).2.1]
    rfl⟩

/-! ## Partial updates of the files table -/

/-- A database holding metadata for `a1` but no files row. -/
def dbMetaOnly : Db :=
  { assets := [("a1", (mkAsset "a1").metaPart)], files := [] }

/-- A database whose files row for `a1` lacks the glb payload. -/
def dbNoGlb : Db :=
  { assets := [("a1", (mkAsset "a1").metaPart)],
    files := [("a1", { assetId := "a1", glb := none, unity := none,
                       zip := none })] }

/-- C9 counterexample: with no files row for the identifier,
`updateAssetInDb` leaves the files table untouched — discarding the
supplied unity and zip bytes — but the supplied thumbnail is **not**
discarded: it is persisted into the metadata row's `thumbnailBlob`, so the
claim that every supplied binary is silently discarded is false at this
input. -/
theorem updateAssetInDb_thumbnail_persisted_cex :
    (updateAssetInDb dbMetaOnly (mkAsset "a1")
        (some [7]) (some [8]) (some [9])).files = [] ∧
    (tableGet (updateAssetInDb dbMetaOnly (mkAsset "a1")
        (some [7]) (some [8]) (some [9])).assets "a1").map
      (fun sa => sa.thumbnailBlob) = some (some [7]) := by
  exact ⟨by decide, by decide⟩

/-- C9 (amended): if the local files table holds no row for the asset
identifier, `updateAssetInDb` writes only the metadata table — the
supplied unity and zip binaries are silently discarded, while the supplied
thumbnail is persisted in the metadata row's `thumbnailBlob` field; and
when a files row exists but lacks a glb payload, the updated row's glb
slot is set to an empty blob. -/
theorem updateAssetInDb_missing_rows (db : Db) (a : Asset)
    (t u z : Option Blob) :
    (tableGet db.files a.id = none →
      (updateAssetInDb db a t u z).files = db.files ∧
      (tableGet (updateAssetInDb db a t u z).assets a.id).map
        (fun sa => sa.thumbnailBlob) = some (jsOr t a.thumbnailBlob)) ∧
    (∀ rec, tableGet db.files a.id = some rec → rec.glb = none →
      tableGet (updateAssetInDb db a t u z).files a.id =
        some { assetId := a.id, glb := some emptyBlob,
               unity := jsOr u rec.unity, zip := jsOr z rec.zip }) := by
  constructor
  · intro h
    constructor
    · simp [updateAssetInDb, h]
    · rw [updateAssetInDb_get_self]
      simp [jsOr]
  · intro rec hrec hglb
    simp [updateAssetInDb, hrec, hglb, tableGet_put_self]

/-- C9 witness: the amended statement at a metadata-only database and at a
glb-less files row. -/
theorem updateAssetInDb_missing_rows_witness :
    (updateAssetInDb dbMetaOnly (mkAsset "a1")
        (some [7]) (some [8]) (some [9])).files = dbMetaOnly.files ∧
    tableGet (updateAssetInDb dbNoGlb (mkAsset "a1")
        none none none).files "a1" =
      some { assetId := "a1", glb := some emptyBlob, unity := none,
             zip := none } := by
  refine ⟨((updateAssetInDb_missing_rows dbMetaOnly (mkAsset "a1")
      (some [7]) (some [8]) (some [9])).1 (by decide)).1, ?_⟩
  have h := (updateAssetInDb_missing_rows dbNoGlb (mkAsset "a1")
      none none none).2
      { assetId := "a1", glb := none, unity := none, zip := none }
      (by decide) rfl
  exact h.trans (by decide)

/-- C5: a partial file update of an existing asset keeps every payload slot
not supplied in the update: replacing only the thumbnail leaves the stored
glb, unity and zip untouched and stores the new thumbnail bytes, and the
orchestrator's `updateAssetFile` on the unity slot (resp. zip slot) leaves
the glb and zip (resp. unity) slots unchanged while storing the new
bytes. -/
theorem partial_update_preserves_slots (serverUrl : String)
    (outcome : HttpOutcome) (s : OrchState) (a : Asset) (rec : AssetFile)
    (g : Blob) (hrec : tableGet s.db.files a.id = some rec)
    (hglb : rec.glb = some g) :
    (∀ tb, tableGet (updateAssetInDb s.db a (some tb) none none).files a.id =
        some { assetId := a.id, glb := some g, unity := rec.unity,
               zip := rec.zip } ∧
      (tableGet (updateAssetInDb s.db a (some tb) none none).assets a.id).map
        (fun sa => sa.thumbnailBlob) = some (some tb)) ∧
    (∀ f, tableGet (AssetContext.updateAssetFile serverUrl outcome s a
        AssetContext.FileSlot.unity f).st.db.files a.id =
        some { assetId := a.id, glb := some g, unity := some f,
               zip := rec.zip }) ∧
    (∀ f, tableGet (AssetContext.updateAssetFile serverUrl outcome s a
        AssetContext.FileSlot.zip f).st.db.files a.id =
        some { assetId := a.id, glb := some g, unity := rec.unity,
               zip := some f }) := by
  refine ⟨?_, ?_, ?_⟩
  · intro tb
    constructor
    · simp [updateAssetInDb, hrec, hglb, tableGet_put_self, jsOr]
    · rw [updateAssetInDb_get_self]
      simp [jsOr]
  · intro f
    simp [AssetContext.updateAssetFile, updateAssetInDb, hrec, hglb,
      tableGet_put_self, jsOr]
  · intro f
    simp [AssetContext.updateAssetFile, updateAssetInDb, hrec, hglb,
      tableGet_put_self, jsOr]

/-- A database holding a full files row for `a1`. -/
def dbFullRow : Db :=
  { assets := [("a1", (mkAsset "a1").metaPart)],
    files := [("a1", { assetId := "a1", glb := some [1], unity := some [2],
                       zip := none })] }

/-- C5 witness: the slot-preservation statement on a concrete stored
asset. -/
theorem partial_update_preserves_slots_witness :
    (tableGet (updateAssetInDb dbFullRow (mkAsset "a1")
        (some [9]) none none).files "a1" =
      some { assetId := "a1", glb := some [1], unity := some [2],
             zip := none }) ∧
    tableGet (AssetContext.updateAssetFile "http://srv" HttpOutcome.ok
        { cache := emptyBlobUrlCache, db := dbFullRow } (mkAsset "a1")
        AssetContext.FileSlot.unity [7]).st.db.files "a1" =
      some { assetId := "a1", glb := some [1], unity := some [7],
             zip := none } :=
  ⟨((partial_update_preserves_slots "http://srv" HttpOutcome.ok
      { cache := emptyBlobUrlCache, db := dbFullRow } (mkAsset "a1")
      { assetId := "a1", glb := some [1], unity := some [2], zip := none }
      [1] (by decide) rfl).1 [9]).1,
   (partial_update_preserves_slots "http://srv" HttpOutcome.ok
      { cache := emptyBlobUrlCache, db := dbFullRow } (mkAsset "a1")
      { assetId := "a1", glb := some [1], unity := some [2], zip := none }
      [1] (by decide) rfl).2.1 [7]⟩

/-! ## Category sanitization and transactional pairing invariants -/

theorem validCategoryId_ne_all (c : Option String) :
    validCategoryId c ≠ "all" := by
  cases c with
  | none => decide
  | some s =>
      by_cases h : s ≠ "" ∧ s ≠ "all"
      · rw [validCategoryId, if_pos h]
        exact h.2
      · rw [validCategoryId, if_neg h]
        decide

theorem applyLocalOp_good (db : Db) (op : LocalOp)
    (h : goodCategories db) : goodCategories (applyLocalOp db op) := by
  cases op with
  | save a files =>
      intro id sa hsa
      by_cases hid : id = a.id
      · subst hid
        rw [show applyLocalOp db (LocalOp.save a files) =
              saveAssetToDb db a files from rfl,
            saveAssetToDb_get_self] at hsa
        cases hsa
        refine ⟨by simp, ?_⟩
        intro hc
        simp only [Option.some.injEq] at hc
        exact validCategoryId_ne_all a.categoryId hc
      · rw [show applyLocalOp db (LocalOp.save a files) =
              saveAssetToDb db a files from rfl] at hsa
        simp only [saveAssetToDb] at hsa
        rw [tableGet_put_other db.assets a.id id _ hid] at hsa
        exact h id sa hsa
  | update a t u z =>
      intro id sa hsa
      by_cases hid : id = a.id
      · subst hid
        rw [show applyLocalOp db (LocalOp.update a t u z) =
              updateAssetInDb db a t u z from rfl,
            updateAssetInDb_get_self] at hsa
        cases hsa
        refine ⟨by simp, ?_⟩
        intro hc
        simp only [Option.some.injEq] at hc
        exact validCategoryId_ne_all a.categoryId hc
      · rw [show applyLocalOp db (LocalOp.update a t u z) =
              updateAssetInDb db a t u z from rfl] at hsa
        simp only [updateAssetInDb] at hsa
        rw [tableGet_put_other db.assets a.id id _ hid] at hsa
        exact h id sa hsa
  | del delId =>
      intro id sa hsa
      rw [show applyLocalOp db (LocalOp.del delId) =
            deleteAssetTables db delId from rfl] at hsa
      simp only [deleteAssetTables] at hsa
      rw [tableGet_del db.assets delId id] at hsa
      by_cases hid : id = delId
      · simp [hid] at hsa
      · rw [if_neg hid] at hsa
        exact h id sa hsa

theorem foldl_applyLocalOp_good (ops : List LocalOp) :
    ∀ db, goodCategories db →
      goodCategories (List.foldl applyLocalOp db ops) := by
  induction ops with
  | nil => intro db h; simpa using h
  | cons op rest ih =>
      intro db h
      simp only [List.foldl_cons]
      exact ih (applyLocalOp db op) (applyLocalOp_good db op h)

/-- C10: every metadata row written through `saveAssetToDb` or
`updateAssetInDb` carries a defined category identifier different from
`all` — a missing or `all` category is silently replaced by `prop` before
storage — and consequently any local store reached from a state satisfying
this invariant through any sequence of save/update/delete operations still
satisfies it. -/
theorem stored_category_invariant (db : Db) (h : goodCategories db) :
    (validCategoryId none = "prop" ∧ validCategoryId (some "all") = "prop" ∧
     validCategoryId (some "") = "prop") ∧
    ∀ ops : List LocalOp,
      goodCategories (List.foldl applyLocalOp db ops) := by
  refine ⟨⟨by decide, by decide, by decide⟩, ?_⟩
  intro ops
  exact foldl_applyLocalOp_good ops db h

/-- C10 witness: the invariant holds after saving an asset whose category
is the pseudo-category `all` and then retagging it with a missing one,
starting from the empty store. -/
theorem stored_category_invariant_witness :
    goodCategories (List.foldl applyLocalOp emptyDb
      [LocalOp.save { mkAsset "a1" with categoryId := some "all" }
          { glb := [1], thumbnail := none, unity := none, zip := none },
       LocalOp.update { mkAsset "a1" with categoryId := none }
          none none none]) :=
  (stored_category_invariant emptyDb
      (fun id sa hsa => by simp [tableGet] at hsa)).2
    [LocalOp.save { mkAsset "a1" with categoryId := some "all" }
        { glb := [1], thumbnail := none, unity := none, zip := none },
     LocalOp.update { mkAsset "a1" with categoryId := none } none none none]

theorem applyDbOp_paired (db : Db) (op : DbOp) (h : pairedTables db) :
    pairedTables (applyDbOp db op) := by
  cases op with
  | save a files =>
      intro id
      rw [show applyDbOp db (DbOp.save a files) = saveAssetToDb db a files
            from rfl]
      simp only [saveAssetToDb]
      rw [tableGet_put db.assets a.id id, tableGet_put db.files a.id id]
      by_cases hid : id = a.id
      · simp [hid]
      · simp only [if_neg hid]
        exact h id
  | del delId =>
      intro id
      rw [show applyDbOp db (DbOp.del delId) = deleteAssetTables db delId
            from rfl]
      simp only [deleteAssetTables]
      rw [tableGet_del db.assets delId id, tableGet_del db.files delId id]
      by_cases hid : id = delId
      · simp [hid]
      · simp only [if_neg hid]
        exact h id

theorem foldl_applyDbOp_paired (ops : List DbOp) :
    ∀ db, pairedTables db → pairedTables (List.foldl applyDbOp db ops) := by
  induction ops with
  | nil => intro db h; simpa using h
  | cons op rest ih =>
      intro db h
      simp only [List.foldl_cons]
      exact ih (applyDbOp db op) (applyDbOp_paired db op h)

/-- C7: `saveAssetToDb` writes the metadata row and the files row in one
transaction, so right after it both rows for the identifier exist;
`deleteAssetFromDb`'s transaction removes both, so afterwards neither
exists; and every store reachable from a state whose two tables pair up,
through any sequence of these two transactional operations, still has
metadata for an identifier exactly when it has its payload row. -/
theorem put_delete_transactional_pairing (db : Db) (h : pairedTables db) :
    (∀ a files,
        (tableGet (saveAssetToDb db a files).assets a.id).isSome = true ∧
        (tableGet (saveAssetToDb db a files).files a.id).isSome = true) ∧
    (∀ cache id,
        tableGet (deleteAssetFromDb cache db id).2.assets id = none ∧
        tableGet (deleteAssetFromDb cache db id).2.files id = none) ∧
    (∀ ops : List DbOp, pairedTables (List.foldl applyDbOp db ops)) := by
  refine ⟨?_, ?_, ?_⟩
  · intro a files
    rw [saveAssetToDb_get_self, saveAssetToDb_get_files_self]
    exact ⟨rfl, rfl⟩
  · intro cache id
    simp [deleteAssetFromDb, deleteAssetTables, tableGet_del_self]
  · intro ops
    exact foldl_applyDbOp_paired ops db h

/-- C7 witness: the pairing facts at the empty store with one concrete
save and delete. -/
theorem put_delete_transactional_pairing_witness :
    ((tableGet (saveAssetToDb emptyDb (mkAsset "a1")
        { glb := [1], thumbnail := none, unity := none,
          zip := none }).assets "a1").isSome = true ∧
     (tableGet (saveAssetToDb emptyDb (mkAsset "a1")
        { glb := [1], thumbnail := none, unity := none,
          zip := none }).files "a1").isSome = true) ∧
    pairedTables (List.foldl applyDbOp emptyDb
      [DbOp.save (mkAsset "a1")
        { glb := [1], thumbnail := none, unity := none, zip := none },
       DbOp.del "a1"]) :=
  ⟨(put_delete_transactional_pairing emptyDb (fun _ => Iff.rfl)).1
      (mkAsset "a1")
      { glb := [1], thumbnail := none, unity := none, zip := none },
   (put_delete_transactional_pairing emptyDb (fun _ => Iff.rfl)).2.2
      [DbOp.save (mkAsset "a1")
        { glb := [1], thumbnail := none, unity := none, zip := none },
       DbOp.del "a1"]⟩

/-! ## Synchronization pulls only upsert -/

theorem optionalSlotFetch_db (serverUrl : String)
    (fetchBlob : String → Option Blob) (field : Option String)
    (s : SyncState) : (optionalSlotFetch serverUrl fetchBlob field s).2.db =
      s.db := by
  by_cases h : jsTruthyStr field = true
  · simp [optionalSlotFetch, h]
  · simp [optionalSlotFetch, h]

theorem syncAssetStep_mono (serverUrl : String)
    (fetchBlob : String → Option Blob) (s : SyncState) (a : Asset)
    (id : String)
    (h : (tableGet s.db.assets id).isSome = true) :
    (tableGet (syncAssetStep serverUrl fetchBlob s a).db.assets id).isSome
      = true := by
  by_cases hu : jsTruthyStr a.url = true
  · simp only [syncAssetStep, hu, if_true]
    cases hfetch : fetchBlob (fixUrl serverUrl (a.url.getD "")) with
    | none => exact h
    | some glbBlob =>
        simp only [saveAssetToDb]
        rw [optionalSlotFetch_db, optionalSlotFetch_db, optionalSlotFetch_db]
        rw [tableGet_put]
        by_cases hid : id = a.id
        · simp [hid]
        · simp only [if_neg hid]
          exact h
  · simp only [syncAssetStep, hu, if_false]
    exact h

theorem foldl_syncAssetStep_mono (serverUrl : String)
    (fetchBlob : String → Option Blob) (l : List Asset) :
    ∀ s id, (tableGet s.db.assets id).isSome = true →
      (tableGet (l.foldl (syncAssetStep serverUrl fetchBlob) s).db.assets
          id).isSome = true := by
  induction l with
  | nil => intro s id h; simpa using h
  | cons a rest ih =>
      intro s id h
      simp only [List.foldl_cons]
      exact ih _ id (syncAssetStep_mono serverUrl fetchBlob s a id h)

theorem foldl_syncAssetStep_mem (serverUrl : String)
    (fetchBlob : String → Option Blob) (l : List Asset) :
    ∀ s a, a ∈ l → jsTruthyStr a.url = true →
      fetchBlob (fixUrl serverUrl (a.url.getD "")) ≠ none →
      (tableGet (l.foldl (syncAssetStep serverUrl fetchBlob) s).db.assets
          a.id).isSome = true := by
  induction l with
  | nil => intro s a h; cases h
  | cons x rest ih =>
      intro s a hmem hurl hfetch
      rcases List.mem_cons.mp hmem with hx | hx
      · subst hx
        simp only [List.foldl_cons]
        apply foldl_syncAssetStep_mono
        simp only [syncAssetStep, hurl, if_true]
        cases hg : fetchBlob (fixUrl serverUrl (a.url.getD "")) with
        | none => exact absurd hg hfetch
        | some glbBlob =>
            simp only [saveAssetToDb]
            rw [tableGet_put]
            simp
      · simp only [List.foldl_cons]
        exact ih _ a hx hurl hfetch

/-- A local store holding one asset the remote no longer lists. -/
def dbGhost : Db :=
  { assets := [("ghost", (mkAsset "ghost").metaPart)],
    files := [("ghost", { assetId := "ghost", glb := some [1], unity := none,
                          zip := none })] }

/-- C3 counterexample: a successful sync against a remote whose list is
empty leaves the locally present asset `ghost` in the local store — the
sync does not remove assets the remote no longer lists, so the local list
does not equal the freshly pulled remote list. -/
theorem syncFromServer_no_removal_cex :
    (syncFromServer "http://srv" (ListResponse.assets []) (fun _ => none)
        dbGhost).ok = true ∧
    tableGet (syncFromServer "http://srv" (ListResponse.assets [])
        (fun _ => none) dbGhost).db.assets "ghost" =
      some ((mkAsset "ghost").metaPart) := by
  exact ⟨by decide, by decide⟩

/-- C3 (amended): a successful synchronization pull merges the freshly
pulled remote list into the local store by upserting: every remotely
listed asset whose primary binary could be fetched is present locally
afterwards, and every asset already present locally remains present —
in particular an asset that exists locally but is no longer listed by the
remote is *not* removed, so the local list need not equal the pulled
remote list. -/
theorem syncFromServer_upserts_only (serverUrl : String)
    (fetchBlob : String → Option Blob) (db : Db) (l : List Asset) :
    (∀ resp id, (tableGet db.assets id).isSome = true →
        (tableGet (syncFromServer serverUrl resp fetchBlob db).db.assets
            id).isSome = true) ∧
    (serverUnconfigured serverUrl = false →
      (syncFromServer serverUrl (ListResponse.assets l) fetchBlob db).ok
          = true ∧
      ∀ a, a ∈ l → jsTruthyStr a.url = true →
        fetchBlob (fixUrl serverUrl (a.url.getD "")) ≠ none →
        (tableGet (syncFromServer serverUrl (ListResponse.assets l) fetchBlob
            db).db.assets a.id).isSome = true) := by
  constructor
  · intro resp id h
    by_cases hu : serverUnconfigured serverUrl = true
    · simpa [syncFromServer, hu] using h
    · simp only [Bool.not_eq_true] at hu
      cases resp with
      | netError => simpa [syncFromServer, hu] using h
      | badStatus => simpa [syncFromServer, hu] using h
      | notArray => simpa [syncFromServer, hu] using h
      | assets l1 =>
          simp only [syncFromServer, hu, Bool.false_eq_true, if_false]
          exact foldl_syncAssetStep_mono serverUrl fetchBlob l1 _ id h
  · intro hu
    constructor
    · simp [syncFromServer, hu]
    · intro a hmem hurl hfetch
      simp only [syncFromServer, hu, Bool.false_eq_true, if_false]
      exact foldl_syncAssetStep_mem serverUrl fetchBlob l _ a hmem hurl hfetch

/-- C3 witness: the amended statement at a concrete store, remote list and
fetcher. -/
theorem syncFromServer_upserts_only_witness :
    (tableGet (syncFromServer "http://srv" (ListResponse.assets [])
        (fun _ => none) dbGhost).db.assets "ghost").isSome = true ∧
    (tableGet (syncFromServer "http://srv"
        (ListResponse.assets [{ mkAsset "a1" with url := some "/u.glb" }])
        (fun _ => some [1]) dbGhost).db.assets "a1").isSome = true :=
  ⟨(syncFromServer_upserts_only "http://srv" (fun _ => none) dbGhost []).1
      (ListResponse.assets []) "ghost" (by decide),
   ((syncFromServer_upserts_only "http://srv" (fun _ => some [1]) dbGhost
      [{ mkAsset "a1" with url := some "/u.glb" }]).2 (by decide)).2
      { mkAsset "a1" with url := some "/u.glb" }
      (by simp) (by decide) (by decide)⟩

/-! ## Handle cache: key uniqueness, reuse and revocation -/

/-- Each key is bound at most once in the registry. -/
def NodupKeys {V : Type} (t : Table V) : Prop := (t.map Prod.fst).Nodup

theorem isBlobUrlValid_createObjectURL (n : Nat) :
    isBlobUrlValid (createObjectURL n) = true := by
  simp only [isBlobUrlValid, createObjectURL]
  have h1 : ("blob:".data).isPrefixOf ("blob:obj-" ++ toString n).data
      = true := by
    rw [List.isPrefixOf_iff_prefix]
    have h2 : ("blob:obj-" ++ toString n).data =
        "blob:".data ++ ("obj-" ++ toString n).data := by
      simp [String.data_append]
    rw [h2]
    exact List.prefix_append _ _
  rw [h1]
  have h9 : "blob:obj-".length = 9 := rfl
  simp [String.length_append, h9]
  omega

theorem tableGet_isSome_iff_mem {V : Type} (t : Table V) (k : String) :
    (tableGet t k).isSome = true ↔ k ∈ t.map Prod.fst := by
  induction t with
  | nil => simp [tableGet]
  | cons hd tl ih =>
      obtain ⟨k0, v0⟩ := hd
      by_cases h0 : k0 = k
      · simp [tableGet, h0]
      · have h2 : ¬ (k = k0) := fun hh => h0 hh.symm
        simp [tableGet, h0, h2, ih]

theorem keys_tablePut {V : Type} (t : Table V) (k : String) (v : V) :
    (tablePut t k v).map Prod.fst =
      if (tableGet t k).isSome = true then t.map Prod.fst
      else t.map Prod.fst ++ [k] := by
  induction t with
  | nil => simp [tablePut, tableGet]
  | cons hd tl ih =>
      obtain ⟨k0, v0⟩ := hd
      by_cases h0 : k0 = k
      · subst h0
        simp [tablePut, tableGet]
      · rw [show tableGet ((k0, v0) :: tl) k = tableGet tl k by
          simp [tableGet, h0]]
        by_cases hs : (tableGet tl k).isSome = true
        · simp [tablePut, h0, ih, hs]
        · simp [tablePut, h0, ih, hs]

theorem nodupKeys_tablePut {V : Type} (t : Table V) (k : String) (v : V)
    (h : NodupKeys t) : NodupKeys (tablePut t k v) := by
  rw [NodupKeys, keys_tablePut]
  by_cases hs : (tableGet t k).isSome = true
  · simpa [hs] using h
  · rw [if_neg hs]
    have hmem : k ∉ t.map Prod.fst := fun hm =>
      hs ((tableGet_isSome_iff_mem t k).mpr hm)
    have h2 : (t.map Prod.fst).Nodup := h
    simp [List.nodup_append, h2, hmem]

theorem tableDel_sublist {V : Type} (t : Table V) (k : String) :
    List.Sublist (tableDel t k) t := by
  induction t with
  | nil => simp [tableDel]
  | cons hd tl ih =>
      obtain ⟨k0, v0⟩ := hd
      by_cases h0 : k0 = k
      · simp only [tableDel, h0, if_true]
        exact ih.trans (List.sublist_cons_self _ _)
      · simp only [tableDel, h0, if_false]
        exact List.Sublist.cons₂ _ ih

theorem nodupKeys_tableDel {V : Type} (t : Table V) (k : String)
    (h : NodupKeys t) : NodupKeys (tableDel t k) :=
  List.Nodup.sublist (List.Sublist.map Prod.fst (tableDel_sublist t k)) h

/-- `cleanupBlobUrlCache` either leaves the map alone or deletes one
key. -/
theorem cleanup_entries_cases (st : BlobUrlCache) :
    (cleanupBlobUrlCache st).entries = st.entries ∨
    ∃ k, (cleanupBlobUrlCache st).entries = tableDel st.entries k := by
  simp only [cleanupBlobUrlCache]
  by_cases hb : st.entries.length > MAX_BLOB_URL_CACHE_SIZE
  · rw [if_pos hb]
    cases st.entries.head? with
    | none => exact Or.inl rfl
    | some p =>
        obtain ⟨firstKey, u0⟩ := p
        dsimp only
        by_cases hk : firstKey ≠ ""
        · rw [if_pos hk]
          exact Or.inr ⟨firstKey, rfl⟩
        · rw [if_neg hk]
          exact Or.inl rfl
  · rw [if_neg hb]
    exact Or.inl rfl

/-- `cleanupBlobUrlCache` only appends to the revocation log. -/
theorem cleanup_revoked_extends (st : BlobUrlCache) :
    List.IsPrefix st.revoked (cleanupBlobUrlCache st).revoked := by
  simp only [cleanupBlobUrlCache]
  by_cases hb : st.entries.length > MAX_BLOB_URL_CACHE_SIZE
  · rw [if_pos hb]
    cases st.entries.head? with
    | none => exact List.prefix_refl _
    | some p =>
        obtain ⟨firstKey, u0⟩ := p
        dsimp only
        by_cases hk : firstKey ≠ ""
        · rw [if_pos hk]
          cases tableGet st.entries firstKey with
          | none => exact List.prefix_refl _
          | some u =>
              dsimp only
              by_cases hu : u ≠ ""
              · rw [if_pos hu]
                exact ⟨[u], rfl⟩
              · rw [if_neg hu]
        · rw [if_neg hk]
  · rw [if_neg hb]

theorem nodupKeys_cleanup (st : BlobUrlCache) (h : NodupKeys st.entries) :
    NodupKeys (cleanupBlobUrlCache st).entries := by
  rcases cleanup_entries_cases st with h1 | ⟨k, h1⟩
  · rw [h1]; exact h
  · rw [h1]; exact nodupKeys_tableDel st.entries k h

theorem nodupKeys_createAndRegister (st : BlobUrlCache) (k : String)
    (h : NodupKeys st.entries) :
    NodupKeys (createAndRegisterBlobURL st k).2.entries := by
  simp only [createAndRegisterBlobURL]
  exact nodupKeys_tablePut _ k _ (nodupKeys_cleanup st h)

theorem createAndRegister_get (st : BlobUrlCache) (k : String) :
    tableGet (createAndRegisterBlobURL st k).2.entries k =
      some (createAndRegisterBlobURL st k).1 := by
  simp [createAndRegisterBlobURL, tableGet_put_self]

theorem createAndRegister_revoked (st : BlobUrlCache) (k : String) :
    List.IsPrefix st.revoked (createAndRegisterBlobURL st k).2.revoked := by
  simp only [createAndRegisterBlobURL]
  exact cleanup_revoked_extends st

theorem createAndRegister_valid (st : BlobUrlCache) (k : String) :
    isBlobUrlValid (createAndRegisterBlobURL st k).1 = true := by
  simp only [createAndRegisterBlobURL]
  exact isBlobUrlValid_createObjectURL _

/-- Case equation: no cached handle. -/
theorem getOrCreate_none_eq (st : BlobUrlCache) (b : Blob) (k : String)
    (f : Bool) (h : tableGet st.entries k = none) :
    getOrCreateBlobURL st b k f = createAndRegisterBlobURL st k := by
  simp [getOrCreateBlobURL, h]

/-- Case equation: cached valid handle, no forced regeneration. -/
theorem getOrCreate_cached_eq (st : BlobUrlCache) (b : Blob) (k : String)
    (cached : String) (h : tableGet st.entries k = some cached)
    (hv : isBlobUrlValid cached = true) :
    getOrCreateBlobURL st b k false = (cached, st) := by
  simp [getOrCreateBlobURL, h, hv]

/-- Case equation: cached handle dropped and regenerated. -/
theorem getOrCreate_regen_eq (st : BlobUrlCache) (b : Blob) (k : String)
    (f : Bool) (cached : String) (h : tableGet st.entries k = some cached)
    (hcond : ¬ (¬ f = true ∧ isBlobUrlValid cached = true)) :
    getOrCreateBlobURL st b k f =
      createAndRegisterBlobURL
        { st with entries := tableDel st.entries k,
                  revoked := st.revoked ++ [cached] } k := by
  simp only [getOrCreateBlobURL, h]
  rw [if_neg hcond]

/-- C4: (i) the registry never binds two live handles to one (id, slot)
key: key uniqueness is preserved by `getOrCreateBlobURL` and by
`revokeBlobUrlsForAsset`; (ii) requesting a handle twice for the same key
without `forceRegenerate` returns the identical handle value and leaves
the registry unchanged on the second call; (iii) creating a new handle for
a key that already holds one first revokes the old handle and then binds
the key to the fresh handle. -/
theorem handle_cache_uniqueness :
    (∀ (st : BlobUrlCache) (b : Blob) (k : String) (f : Bool),
        NodupKeys st.entries →
        NodupKeys ((getOrCreateBlobURL st b k f).2.entries)) ∧
    (∀ (st : BlobUrlCache) (id : String), NodupKeys st.entries →
        NodupKeys ((revokeBlobUrlsForAsset st id).entries)) ∧
    (∀ (st : BlobUrlCache) (b : Blob) (k : String),
        getOrCreateBlobURL ((getOrCreateBlobURL st b k false).2) b k false =
          ((getOrCreateBlobURL st b k false).1,
           (getOrCreateBlobURL st b k false).2)) ∧
    (∀ (st : BlobUrlCache) (b : Blob) (k : String) (u : String),
        tableGet st.entries k = some u →
        List.IsPrefix (st.revoked ++ [u])
          ((getOrCreateBlobURL st b k true).2.revoked) ∧
        tableGet ((getOrCreateBlobURL st b k true).2.entries) k =
          some ((getOrCreateBlobURL st b k true).1)) := by
  refine ⟨?_, ?_, ?_, ?_⟩
  · intro st b k f h
    cases hc : tableGet st.entries k with
    | none =>
        rw [getOrCreate_none_eq st b k f hc]
        exact nodupKeys_createAndRegister st k h
    | some cached =>
        by_cases hv : ¬ f = true ∧ isBlobUrlValid cached = true
        · cases f with
          | false =>
              rw [getOrCreate_cached_eq st b k cached hc hv.2]
              exact h
          | true => exact absurd rfl hv.1
        · rw [getOrCreate_regen_eq st b k f cached hc hv]
          exact nodupKeys_createAndRegister _ k
            (nodupKeys_tableDel st.entries k h)
  · intro st id h
    have step : ∀ (s1 : BlobUrlCache) (key : String),
        NodupKeys s1.entries → NodupKeys (revokeSlotKey s1 key).entries := by
      intro s1 key h1
      simp only [revokeSlotKey]
      cases hg : tableGet s1.entries key with
      | none => exact h1
      | some u =>
          dsimp only
          by_cases hu : u ≠ ""
          · rw [if_pos hu]
            exact nodupKeys_tableDel s1.entries key h1
          · rw [if_neg hu]
            exact h1
    simp only [revokeBlobUrlsForAsset, slotKeys, List.foldl_cons,
      List.foldl_nil]
    exact step _ _ (step _ _ (step _ _ (step _ _ h)))
  · intro st b k
    cases hc : tableGet st.entries k with
    | none =>
        rw [getOrCreate_none_eq st b k false hc]
        exact getOrCreate_cached_eq _ b k _ (createAndRegister_get st k)
          (createAndRegister_valid st k)
    | some cached =>
        by_cases hv : isBlobUrlValid cached = true
        · rw [getOrCreate_cached_eq st b k cached hc hv]
          exact getOrCreate_cached_eq st b k cached hc hv
        · rw [getOrCreate_regen_eq st b k false cached hc
            (fun hcond => hv hcond.2)]
          exact getOrCreate_cached_eq _ b k _ (createAndRegister_get _ k)
            (createAndRegister_valid _ k)
  · intro st b k u hu
    rw [getOrCreate_regen_eq st b k true u hu
      (fun hcond => hcond.1 rfl)]
    constructor
    · have h2 := createAndRegister_revoked
        { st with entries := tableDel st.entries k,
                  revoked := st.revoked ++ [u] } k
      exact h2
    · exact createAndRegister_get _ k

/-- C4 witness: uniqueness, reuse and forced-regeneration revocation on a
concrete registry holding one handle. -/
theorem handle_cache_uniqueness_witness :
    NodupKeys ((getOrCreateBlobURL emptyBlobUrlCache [1] "a1:glb"
        false).2.entries) ∧
    getOrCreateBlobURL ((getOrCreateBlobURL emptyBlobUrlCache [1] "a1:glb"
        false).2) [1] "a1:glb" false =
      ((getOrCreateBlobURL emptyBlobUrlCache [1] "a1:glb" false).1,
       (getOrCreateBlobURL emptyBlobUrlCache [1] "a1:glb" false).2) ∧
    List.IsPrefix
      (({ entries := [("a1:glb", "blob:obj-0")], nextId := 1, revoked := [],
          evictions := 0 } : BlobUrlCache).revoked ++ ["blob:obj-0"])
      ((getOrCreateBlobURL
          { entries := [("a1:glb", "blob:obj-0")], nextId := 1, revoked := [],
            evictions := 0 } [1] "a1:glb" true).2.revoked) :=
  ⟨handle_cache_uniqueness.1 emptyBlobUrlCache [1] "a1:glb" false
      (by simp [NodupKeys, emptyBlobUrlCache]),
   handle_cache_uniqueness.2.2.1 emptyBlobUrlCache [1] "a1:glb",
   (handle_cache_uniqueness.2.2.2
      { entries := [("a1:glb", "blob:obj-0")], nextId := 1, revoked := [],
        evictions := 0 } [1] "a1:glb" "blob:obj-0" (by decide)).1⟩

/-! ## Eviction behaviour of the handle cache -/

/-- Create handles for a list of keys in order (one `getOrCreateBlobURL`
per key), as the eviction-bound scenario does. -/
def insertHandles (ks : List String) (st : BlobUrlCache) : BlobUrlCache :=
  ks.foldl (fun s k => (getOrCreateBlobURL s emptyBlob k false).2) st

/-- The map produced by registering fresh keys in order from URL counter
`n`. -/
def freshEntries : List String → Nat → Table String
  | [], _ => []
  | k :: r, n => (k, createObjectURL n) :: freshEntries r (n + 1)

theorem freshEntries_length (ks : List String) :
    ∀ n, (freshEntries ks n).length = ks.length := by
  induction ks with
  | nil => intro n; rfl
  | cons k r ih => intro n; simp [freshEntries, ih]

theorem freshEntries_keys (ks : List String) :
    ∀ n, (freshEntries ks n).map Prod.fst = ks := by
  induction ks with
  | nil => intro n; rfl
  | cons k r ih => intro n; simp [freshEntries, ih]

theorem tableGet_none_of_not_mem {V : Type} (t : Table V) (k : String)
    (h : k ∉ t.map Prod.fst) : tableGet t k = none := by
  cases hs : tableGet t k with
  | none => rfl
  | some v =>
      exact absurd ((tableGet_isSome_iff_mem t k).mp (by simp [hs])) h

theorem tableGet_append {V : Type} (t1 t2 : Table V) (k : String) :
    tableGet (t1 ++ t2) k =
      match tableGet t1 k with
      | some v => some v
      | none => tableGet t2 k := by
  induction t1 with
  | nil => simp [tableGet]
  | cons hd tl ih =>
      obtain ⟨k0, v0⟩ := hd
      by_cases h0 : k0 = k
      · simp [tableGet, h0]
      · simp [tableGet, h0, ih]

theorem tablePut_fresh {V : Type} (t : Table V) (k : String) (v : V)
    (h : tableGet t k = none) : tablePut t k v = t ++ [(k, v)] := by
  induction t with
  | nil => simp [tablePut]
  | cons hd tl ih =>
      obtain ⟨k0, v0⟩ := hd
      by_cases h0 : k0 = k
      · rw [show tableGet ((k0, v0) :: tl) k = some v0 by
          simp [tableGet, h0]] at h
        cases h
      · rw [show tableGet ((k0, v0) :: tl) k = tableGet tl k by
          simp [tableGet, h0]] at h
        simp [tablePut, h0, ih h]

theorem tableDel_fresh {V : Type} (t : Table V) (k : String)
    (h : tableGet t k = none) : tableDel t k = t := by
  induction t with
  | nil => rfl
  | cons hd tl ih =>
      obtain ⟨k0, v0⟩ := hd
      by_cases h0 : k0 = k
      · rw [show tableGet ((k0, v0) :: tl) k = some v0 by
          simp [tableGet, h0]] at h
        cases h
      · rw [show tableGet ((k0, v0) :: tl) k = tableGet tl k by
          simp [tableGet, h0]] at h
        simp [tableDel, h0, ih h]

theorem createObjectURL_ne_empty (n : Nat) : createObjectURL n ≠ "" := by
  intro h
  have h1 := congrArg String.length h
  have h9 : "blob:obj-".length = 9 := rfl
  simp [createObjectURL, String.length_append, h9] at h1

/-- Below the bound `cleanupBlobUrlCache` does nothing. -/
theorem cleanup_noop (st : BlobUrlCache)
    (h : st.entries.length ≤ MAX_BLOB_URL_CACHE_SIZE) :
    cleanupBlobUrlCache st = st := by
  simp only [cleanupBlobUrlCache]
  rw [if_neg (by omega)]

/-- Past the bound `cleanupBlobUrlCache` drops exactly the oldest entry,
revoking its URL. -/
theorem cleanup_evict (st : BlobUrlCache) (k0 u0 : String)
    (rest0 : Table String) (he : st.entries = (k0, u0) :: rest0)
    (hb : st.entries.length > MAX_BLOB_URL_CACHE_SIZE) (hk0 : k0 ≠ "")
    (hu0 : u0 ≠ "") (hnd : NodupKeys st.entries) :
    cleanupBlobUrlCache st =
      { entries := rest0, nextId := st.nextId,
        revoked := st.revoked ++ [u0], evictions := st.evictions + 1 } := by
  have hhead : st.entries.head? = some (k0, u0) := by rw [he]; rfl
  have hget : tableGet st.entries k0 = some u0 := by
    rw [he]; simp [tableGet]
  have hrest : tableGet rest0 k0 = none := by
    apply tableGet_none_of_not_mem
    rw [he] at hnd
    have h1 : (k0 :: rest0.map Prod.fst).Nodup := by
      simpa [NodupKeys] using hnd
    exact (List.nodup_cons.mp h1).1
  have hdel : tableDel st.entries k0 = rest0 := by
    rw [he]
    simp only [tableDel, if_pos rfl]
    exact tableDel_fresh rest0 k0 hrest
  simp only [cleanupBlobUrlCache, hhead, hget]
  rw [if_pos hb, if_pos hk0, if_pos hu0, hdel]

/-- Inserting a fresh key while strictly below the bound appends it and
touches nothing else. -/
theorem insert_fresh_below (st : BlobUrlCache) (b : Blob) (k : String)
    (hfresh : tableGet st.entries k = none)
    (hlen : st.entries.length ≤ MAX_BLOB_URL_CACHE_SIZE) :
    (getOrCreateBlobURL st b k false).2 =
      { entries := st.entries ++ [(k, createObjectURL st.nextId)],
        nextId := st.nextId + 1, revoked := st.revoked,
        evictions := st.evictions } := by
  rw [getOrCreate_none_eq st b k false hfresh]
  simp only [createAndRegisterBlobURL, cleanup_noop st hlen]
  rw [tablePut_fresh st.entries k _ hfresh]

/-- Inserting a fresh nonempty key while the map is past the bound evicts
the oldest entry, revokes its URL, and appends the new entry. -/
theorem insert_fresh_evict (st : BlobUrlCache) (b : Blob) (k k0 u0 : String)
    (rest0 : Table String) (he : st.entries = (k0, u0) :: rest0)
    (hb : st.entries.length > MAX_BLOB_URL_CACHE_SIZE) (hk0 : k0 ≠ "")
    (hu0 : u0 ≠ "") (hnd : NodupKeys st.entries)
    (hfresh : tableGet st.entries k = none) :
    (getOrCreateBlobURL st b k false).2 =
      { entries := rest0 ++ [(k, createObjectURL st.nextId)],
        nextId := st.nextId + 1, revoked := st.revoked ++ [u0],
        evictions := st.evictions + 1 } := by
  rw [getOrCreate_none_eq st b k false hfresh]
  simp only [createAndRegisterBlobURL,
    cleanup_evict st k0 u0 rest0 he hb hk0 hu0 hnd]
  have hfr : tableGet rest0 k = none := by
    rw [he] at hfresh
    by_cases h0 : k0 = k
    · rw [show tableGet ((k0, u0) :: rest0) k = some u0 by
        simp [tableGet, h0]] at hfresh
      cases hfresh
    · rw [show tableGet ((k0, u0) :: rest0) k = tableGet rest0 k by
        simp [tableGet, h0]] at hfresh
      exact hfresh
  rw [tablePut_fresh rest0 k _ hfr]

/-- Folding fresh, distinct keys into a registry while the result stays
within `MAX + 1` entries appends them in order with consecutive URLs and
performs no eviction or revocation. -/
theorem insertHandles_below (ks : List String) :
    ∀ st, (∀ x ∈ ks, tableGet st.entries x = none) → ks.Nodup →
      st.entries.length + ks.length ≤ MAX_BLOB_URL_CACHE_SIZE + 1 →
      insertHandles ks st =
        { entries := st.entries ++ freshEntries ks st.nextId,
          nextId := st.nextId + ks.length, revoked := st.revoked,
          evictions := st.evictions } := by
  induction ks with
  | nil =>
      intro st hfresh hnd hlen
      simp [insertHandles, freshEntries]
  | cons k r ih =>
      intro st hfresh hnd hlen
      have hstep := insert_fresh_below st emptyBlob k
        (hfresh k (by simp)) (by simp at hlen; omega)
      have hr : ∀ x ∈ r, tableGet
          (st.entries ++ [(k, createObjectURL st.nextId)]) x = none := by
        intro x hx
        rw [tableGet_append]
        rw [hfresh x (by simp [hx])]
        have hxk : ¬ (k = x) := by
          intro hh
          subst hh
          exact (List.nodup_cons.mp hnd).1 hx
        simp [tableGet, hxk]
      have hlen2 : st.entries.length + 1 + r.length ≤
          MAX_BLOB_URL_CACHE_SIZE + 1 := by simp at hlen; omega
      have := ih { entries := st.entries ++ [(k, createObjectURL st.nextId)],
                   nextId := st.nextId + 1, revoked := st.revoked,
                   evictions := st.evictions }
        (by simpa using hr) (List.nodup_cons.mp hnd).2
        (by simpa using hlen2)
      calc insertHandles (k :: r) st
          = insertHandles r ((getOrCreateBlobURL st emptyBlob k false).2) := by
            simp [insertHandles]
        _ = insertHandles r
              { entries := st.entries ++ [(k, createObjectURL st.nextId)],
                nextId := st.nextId + 1, revoked := st.revoked,
                evictions := st.evictions } := by rw [hstep]
        _ = { entries := st.entries ++ freshEntries (k :: r) st.nextId,
              nextId := st.nextId + (k :: r).length, revoked := st.revoked,
              evictions := st.evictions } := by
            rw [this]
            dsimp only
            rw [show freshEntries (k :: r) st.nextId =
                  (k, createObjectURL st.nextId) ::
                    freshEntries r (st.nextId + 1) from rfl,
                List.append_assoc, List.singleton_append]
            congr 1
            simp only [List.length_cons]
            omega

/-- Fifty-one pairwise distinct nonempty cache keys. -/
def keys51 : List String :=
  (List.range (MAX_BLOB_URL_CACHE_SIZE + 1)).map (fun i => "k" ++ toString i)

set_option maxRecDepth 4000

/-- C2 counterexample: creating N+1 = 51 handles for 51 distinct keys from
the empty registry performs no eviction at all and leaves 51 live entries
— the cleanup runs before the insertion and only fires at strictly more
than N entries, so the claimed "exactly one eviction, never more than N
live entries" is false. -/
theorem eviction_bound_cex :
    (insertHandles keys51 emptyBlobUrlCache).evictions = 0 ∧
    (insertHandles keys51 emptyBlobUrlCache).entries.length =
      MAX_BLOB_URL_CACHE_SIZE + 1 := by
  exact ⟨by decide, by decide⟩

/-- C2 (amended): for the bound N = 50, creating handles for N+2 distinct
nonempty keys from the empty registry performs no eviction through the
first N+1 creations (the registry then holds exactly N+1 live entries);
the (N+2)-th creation triggers exactly one eviction, which removes the
first-created key and revokes its handle; and at every point the number of
live entries never exceeds N+1. -/
theorem eviction_bound_amended (k0 : String) (rest : List String)
    (hlen : rest.length = MAX_BLOB_URL_CACHE_SIZE + 1)
    (hnd : (k0 :: rest).Nodup) (hne : ∀ k ∈ k0 :: rest, k ≠ "") :
    (∀ n, n ≤ MAX_BLOB_URL_CACHE_SIZE + 1 →
        (insertHandles ((k0 :: rest).take n) emptyBlobUrlCache).evictions
          = 0 ∧
        (insertHandles ((k0 :: rest).take n)
            emptyBlobUrlCache).entries.length = n) ∧
    (insertHandles (k0 :: rest) emptyBlobUrlCache).evictions = 1 ∧
    (insertHandles (k0 :: rest) emptyBlobUrlCache).revoked =
      [createObjectURL 0] ∧
    tableGet (insertHandles (k0 :: rest) emptyBlobUrlCache).entries k0
      = none ∧
    (insertHandles (k0 :: rest) emptyBlobUrlCache).entries.length =
      MAX_BLOB_URL_CACHE_SIZE + 1 ∧
    (∀ n, (insertHandles ((k0 :: rest).take n)
        emptyBlobUrlCache).entries.length ≤ MAX_BLOB_URL_CACHE_SIZE + 1) := by
  have hk0rest : k0 ∉ rest := (List.nodup_cons.mp hnd).1
  have hrestnd : rest.Nodup := (List.nodup_cons.mp hnd).2
  -- the below-bound characterization of every prefix of length at most 51
  have hbelow : ∀ n, n ≤ MAX_BLOB_URL_CACHE_SIZE + 1 →
      insertHandles ((k0 :: rest).take n) emptyBlobUrlCache =
        { entries := freshEntries ((k0 :: rest).take n) 0,
          nextId := ((k0 :: rest).take n).length, revoked := [],
          evictions := 0 } := by
    intro n hn
    have h := insertHandles_below ((k0 :: rest).take n) emptyBlobUrlCache
      (fun x _ => rfl)
      (List.Nodup.sublist (List.take_sublist n (k0 :: rest)) hnd)
      (by
        simp only [emptyBlobUrlCache, List.length_nil, List.length_take,
          List.length_cons, hlen]
        omega)
    rw [h]
    simp [emptyBlobUrlCache]
  refine ⟨?_, ?_⟩
  · intro n hn
    rw [hbelow n hn]
    refine ⟨rfl, ?_⟩
    simp only [freshEntries_length, List.length_take, List.length_cons, hlen]
    exact Nat.min_eq_left (by omega)
  · -- split the key list as the first 51 keys plus the last one
    obtain ⟨klast, hdrop⟩ : ∃ klast, rest.drop MAX_BLOB_URL_CACHE_SIZE
        = [klast] := by
      apply List.length_eq_one.mp
      rw [List.length_drop, hlen]
      omega
    have hsplit : rest.take MAX_BLOB_URL_CACHE_SIZE ++ [klast] = rest := by
      rw [← hdrop]
      exact List.take_append_drop _ rest
    have hklast_mem : klast ∈ rest := by
      rw [← hsplit]
      simp
    have hklast_take : klast ∉ rest.take MAX_BLOB_URL_CACHE_SIZE := by
      intro hmem
      have h1 : ¬ rest.Nodup := by
        rw [← hsplit]
        intro hh
        rcases List.nodup_append.mp hh with ⟨_, _, hdisj⟩
        exact hdisj hmem (by simp)
      exact h1 hrestnd
    have hklast_ne_k0 : klast ≠ k0 := by
      intro hh
      exact hk0rest (hh ▸ hklast_mem)
    -- the state after the first 51 creations
    have h51 := hbelow (MAX_BLOB_URL_CACHE_SIZE + 1) (le_refl _)
    have htake51 : (k0 :: rest).take (MAX_BLOB_URL_CACHE_SIZE + 1) =
        k0 :: rest.take MAX_BLOB_URL_CACHE_SIZE := by
      simp [List.take_cons]
    rw [htake51] at h51
    have hlen51 : (k0 :: rest.take MAX_BLOB_URL_CACHE_SIZE).length =
        MAX_BLOB_URL_CACHE_SIZE + 1 := by
      simp only [List.length_cons, List.length_take, hlen]
      omega
    -- the whole run is the 51-key run followed by the last key
    have happend : insertHandles (k0 :: rest) emptyBlobUrlCache =
        (getOrCreateBlobURL (insertHandles
            (k0 :: rest.take MAX_BLOB_URL_CACHE_SIZE) emptyBlobUrlCache)
          emptyBlob klast false).2 := by
      rw [show k0 :: rest = (k0 :: rest.take MAX_BLOB_URL_CACHE_SIZE)
            ++ [klast] by simp [hsplit]]
      simp [insertHandles, List.foldl_append]
    -- the final insertion evicts the first-created entry
    have hkeys51 : (freshEntries (k0 :: rest.take MAX_BLOB_URL_CACHE_SIZE)
        0).map Prod.fst = k0 :: rest.take MAX_BLOB_URL_CACHE_SIZE :=
      freshEntries_keys _ 0
    have hfresh51 : tableGet (freshEntries
        (k0 :: rest.take MAX_BLOB_URL_CACHE_SIZE) 0) klast = none := by
      apply tableGet_none_of_not_mem
      rw [hkeys51]
      intro hmem
      rcases List.mem_cons.mp hmem with hh | hh
      · exact hklast_ne_k0 hh
      · exact hklast_take hh
    have hevict := insert_fresh_evict
      { entries := freshEntries (k0 :: rest.take MAX_BLOB_URL_CACHE_SIZE) 0,
        nextId := (k0 :: rest.take MAX_BLOB_URL_CACHE_SIZE).length,
        revoked := [], evictions := 0 }
      emptyBlob klast k0 (createObjectURL 0)
      (freshEntries (rest.take MAX_BLOB_URL_CACHE_SIZE) 1)
      rfl
      (by
        simp only [freshEntries_length, hlen51]
        omega)
      (hne k0 (by simp)) (createObjectURL_ne_empty 0)
      (by
        rw [NodupKeys, hkeys51, ← htake51]
        exact List.Nodup.sublist (List.take_sublist _ _) hnd)
      hfresh51
    have hfinal : insertHandles (k0 :: rest) emptyBlobUrlCache =
        { entries := freshEntries (rest.take MAX_BLOB_URL_CACHE_SIZE) 1 ++
            [(klast, createObjectURL
              (k0 :: rest.take MAX_BLOB_URL_CACHE_SIZE).length)],
          nextId := (k0 :: rest.take MAX_BLOB_URL_CACHE_SIZE).length + 1,
          revoked := [] ++ [createObjectURL 0], evictions := 0 + 1 } := by
      rw [happend, h51]
      exact hevict
    refine ⟨?_, ?_, ?_, ?_, ?_⟩
    · rw [hfinal]
    · rw [hfinal]
      simp
    · rw [hfinal]
      apply tableGet_none_of_not_mem
      simp only [List.map_append, freshEntries_keys]
      intro hmem
      rcases List.mem_append.mp hmem with hh | hh
      · exact hk0rest (List.take_subset _ _ hh)
      · simp at hh
        exact hklast_ne_k0 hh.symm
    · rw [hfinal]
      have htakelen : (rest.take MAX_BLOB_URL_CACHE_SIZE).length =
          MAX_BLOB_URL_CACHE_SIZE := by
        rw [List.length_take, hlen]
        exact Nat.min_eq_left (by omega)
      simp [freshEntries_length, htakelen]
    · intro n
      by_cases hn : n ≤ MAX_BLOB_URL_CACHE_SIZE + 1
      · rw [hbelow n hn]
        simp only [freshEntries_length, List.length_take, List.length_cons,
          hlen]
        exact le_trans (Nat.min_le_left _ _) hn
      · have htk : (k0 :: rest).take n = k0 :: rest := by
          apply List.take_of_length_le
          simp only [List.length_cons, hlen]
          omega
        rw [htk, hfinal]
        have htakelen : (rest.take MAX_BLOB_URL_CACHE_SIZE).length =
            MAX_BLOB_URL_CACHE_SIZE := by
          rw [List.length_take, hlen]
          exact Nat.min_eq_left (by omega)
        simp [freshEntries_length, htakelen]

/-- Fifty-two pairwise distinct nonempty cache keys. -/
def keys52tail : List String :=
  (List.range (MAX_BLOB_URL_CACHE_SIZE + 1)).map
    (fun i => "t" ++ toString i)

/-- C2 witness: the amended eviction statement evaluated on 52 concrete
keys. -/
theorem eviction_bound_amended_witness :
    (insertHandles ("k" :: keys52tail) emptyBlobUrlCache).evictions = 1 ∧
    (insertHandles ("k" :: keys52tail) emptyBlobUrlCache).revoked =
      [createObjectURL 0] ∧
    tableGet (insertHandles ("k" :: keys52tail) emptyBlobUrlCache).entries
      "k" = none :=
  ⟨(eviction_bound_amended "k" keys52tail (by decide) (by decide)
      (by decide)).2.1,
   (eviction_bound_amended "k" keys52tail (by decide) (by decide)
      (by decide)).2.2.1,
   (eviction_bound_amended "k" keys52tail (by decide) (by decide)
      (by decide)).2.2.2.1⟩

end DAM
